import Mathlib

/-! Ganglicht: reactive LED strip (`reactive_led.cpp`)

A shallow embedding of the lighting state machine of `src/reactive_led.cpp`
and proofs of properties of it.

Modelling conventions

* The global variables of the translation unit that the two entry points read
  or write are the fields `led_state`, `timer`, `lastFlicker`,
  `flickerIndexPerLed` and `lightValue` of `State`.  The remaining globals of
  the source (`led_lumidity`, `actual_led_index`, ...) are never touched by any
  function and are left out.
* The Arduino core is the environment.  `pwm` maps an output pin to the duty
  (brightness) last written to it; `clock` is the value `millis()` returns,
  an `unsigned long` (32 bit), which only `delay` advances during a call and
  which the environment sets between two calls; `log` is a history variable
  recording every brightness write and every delay in program order.
* `analogRead(A0)`, `digitalRead(SensorPinLeft)` and
  `digitalRead(SensorPinRight)` are sampled once per call; their values are the
  fields of `Inputs`.
* `candleVals[k]` with `k` outside the table is undefined behaviour in C; the
  embedding returns `none` there.
-/

namespace Ganglicht

/-! ## Constants of the source -/

/-- Number of LED channels: `sizeof(LedPins) / sizeof(LedPins[0])`. -/
abbrev ledPinLength : Nat := 6

/-- The table `int LedPins[] = { 3, 5, 6, 9, 10, 11 }`. -/
def LedPins : Fin ledPinLength → Nat := ![3, 5, 6, 9, 10, 11]

/-- The macro `onTimeLight` (ms the strip stays on without new motion). -/
def onTimeLight : Nat := 10000
/-- The macro `dimSpeedHi` (step delay of the ramp-in). -/
def dimSpeedHi : Nat := 3
/-- The macro `dimSpeedLo` (step delay of the ramp-out). -/
def dimSpeedLo : Nat := 5
/-- The macro `lumidity` (LDR threshold). -/
def lumidity : Int := 200
/-- Arduino `LOW`. -/
def LOW : Int := 0
/-- Arduino `HIGH`. -/
def HIGH : Int := 1

/-- The table `const uint8_t candleVals[]`. -/
def candleVals : List Nat := [
  236, 229, 241, 252, 235, 224, 212, 228,
  246, 240, 245, 238, 230, 214, 195, 222,
  239, 253, 244, 236, 228, 216, 224, 237,
  246, 249, 238, 229, 220, 208, 190, 210,
  225, 239, 251, 243, 234, 222, 231, 247,
  255, 244, 235, 226, 214, 205, 196, 208,
  219, 233, 246, 239, 230, 219, 212, 200,
  210, 224, 236, 248, 241, 232, 223, 212]

/-- The constant `FLICKER_DELAY_MS`. -/
def FLICKER_DELAY_MS : Nat := 35

/-- Modulus of `unsigned long` arithmetic. -/
def U32 : Nat := 4294967296

/-- The difference `a - b` of two `unsigned long` values, computed modulo 2^32. -/
def subU32 (a b : Nat) : Nat := (a + (U32 - b % U32)) % U32

/-! ## State and environment -/

/-- One observable action on the hardware. -/
inductive Event where
  | write (pin : Nat) (val : Int)
  | delay (ms : Nat)
  deriving DecidableEq, Repr

/-- The sensor samples of one call of `reactiveLedLoop`. -/
structure Inputs where
  /-- Value of `analogRead(A0)`. -/
  light : Int
  /-- Value of `digitalRead(SensorPinLeft)`. -/
  sensorLeft : Int
  /-- Value of `digitalRead(SensorPinRight)`. -/
  sensorRight : Int
  deriving DecidableEq, Repr

/-- Program globals together with the modelled part of the hardware. -/
@[ext] structure State where
  led_state : Int
  timer : Nat
  lastFlicker : Nat
  flickerIndexPerLed : Fin ledPinLength → Nat
  lightValue : Int
  pwm : Nat → Int
  clock : Nat
  log : List Event

/-- Brightness of channel `i`: the duty last written to its pin. -/
def State.brightness (s : State) (i : Fin ledPinLength) : Int := s.pwm (LedPins i)

/-! ## Arduino primitives -/

/-- The call `analogWrite(pin, val)`: the pin shows duty `val`. -/
def analogWrite (pin : Nat) (val : Int) (s : State) : State :=
  { s with pwm := Function.update s.pwm pin val, log := s.log ++ [Event.write pin val] }

/-- The call `digitalWrite(pin, val)`: the pin is fully off for `LOW`, fully on otherwise. -/
def digitalWrite (pin : Nat) (val : Int) (s : State) : State :=
  let duty : Int := if val = LOW then 0 else 255
  { s with pwm := Function.update s.pwm pin duty, log := s.log ++ [Event.write pin duty] }

/-- The call `delay(ms)`: the millisecond clock advances by `ms` (modulo 2^32). -/
def delay (ms : Nat) (s : State) : State :=
  { s with clock := (s.clock + ms) % U32, log := s.log ++ [Event.delay ms] }

/-- The call `millis()`. -/
def millis (s : State) : Nat := s.clock

/-! ## The functions of `reactive_led.cpp` -/

/-- The function `shutoff`. -/
def shutoff (s : State) : State :=
  let s := (List.finRange ledPinLength).foldl (fun s i => digitalWrite (LedPins i) LOW s) s
  { s with led_state := 0 }

/-- The function `turnonleft`. -/
def turnonleft (s : State) : State :=
  let s := (List.finRange ledPinLength).foldl (fun s i =>
    (List.range 256).foldl (fun s (j : Nat) =>
      delay dimSpeedHi (analogWrite (LedPins i) (j : Int) s)) s) s
  let s := { s with led_state := 3 }
  { s with timer := millis s }

/-- The function `turnonright`. -/
def turnonright (s : State) : State :=
  let s := (List.finRange ledPinLength).foldl (fun s i =>
    (List.range 256).foldl (fun s (j : Nat) =>
      delay dimSpeedHi
        (analogWrite (LedPins ⟨ledPinLength - i.val - 1, by omega⟩) (j : Int) s)) s) s
  let s := { s with led_state := 3 }
  { s with timer := millis s }

/-- The function `turnoff`. -/
def turnoff (s : State) : State :=
  let s := (List.range 256).reverse.foldl (fun s (j : Nat) =>
    delay dimSpeedLo
      ((List.finRange ledPinLength).foldl (fun s i => analogWrite (LedPins i) (j : Int) s) s)) s
  { s with led_state := 0 }

/-- The function `reactiveLedSetup`.  The `pinMode` calls only configure pin
directions and change nothing that is modelled. -/
def reactiveLedSetup (s : State) : State :=
  let N := candleVals.length
  (List.finRange ledPinLength).foldl (fun s i =>
    { s with flickerIndexPerLed := Function.update s.flickerIndexPerLed i ((i.val * 7) % N) }) s

/-- Body of the flicker loop of `reactiveLedLoop` for channel `i`. -/
def flickerChannel (s : State) (i : Fin ledPinLength) : Option State :=
  let N := candleVals.length
  match candleVals[s.flickerIndexPerLed i]? with
  | none => none
  | some b =>
    let s := analogWrite (LedPins i) (b : Int) s
    let s := { s with
      flickerIndexPerLed := Function.update s.flickerIndexPerLed i (s.flickerIndexPerLed i + 1) }
    if s.flickerIndexPerLed i ≥ N then
      some { s with flickerIndexPerLed := Function.update s.flickerIndexPerLed i 0 }
    else some s

/-- The function `reactiveLedLoop`. -/
def reactiveLedLoop (inp : Inputs) (s : State) : Option State :=
  let s := { s with lightValue := inp.light }
  if s.led_state = 0 then
    if inp.sensorLeft = 1 ∧ s.lightValue ≥ lumidity then
      some { s with led_state := 1 }
    else if inp.sensorRight = 1 ∧ s.lightValue ≥ lumidity then
      some { s with led_state := 2 }
    else
      some (shutoff s)
  else if s.led_state = 1 then
    some (turnonleft s)
  else if s.led_state = 2 then
    some (turnonright s)
  else if s.led_state = 3 then do
    let s ←
      if subU32 (millis s) s.lastFlicker ≥ FLICKER_DELAY_MS then
        (List.finRange ledPinLength).foldlM flickerChannel { s with lastFlicker := millis s }
      else
        some s
    if inp.sensorLeft = 1 ∨ inp.sensorRight = 1 then
      some { s with timer := millis s }
    else if subU32 (millis s) s.timer ≥ onTimeLight then
      some { s with led_state := 4 }
    else
      some s
  else if s.led_state = 4 then
    some (turnoff s)
  else
    some s

/-! ## Runs -/

/-- State at power-on: zero-initialised globals, all outputs dark. -/
def initState : State :=
  { led_state := 0, timer := 0, lastFlicker := 0, flickerIndexPerLed := fun _ => 0,
    lightValue := 0, pwm := fun _ => 0, clock := 0, log := [] }

/-- One call of the host loop: the environment supplies the clock value and the samples. -/
structure Tick where
  /-- Value of `millis()` on entry (reduced to 32 bit). -/
  now : Nat
  inp : Inputs
  deriving DecidableEq, Repr

/-- One call of `reactiveLedLoop` at the time and with the samples of `tk`. -/
def tick (tk : Tick) (s : State) : Option State :=
  reactiveLedLoop tk.inp { s with clock := tk.now % U32 }

/-- A sequence of calls of `reactiveLedLoop`. -/
def run : List Tick → State → Option State
  | [], s => some s
  | tk :: tks, s => (tick tk s).bind (run tks)

/-! ## Closed forms used in the statements -/

/-- Events of one channel's ramp-in through the levels below `n`. -/
def rampUpTrace (pin n : Nat) : List Event :=
  (List.range n).flatMap (fun j => [Event.write pin (j : Int), Event.delay dimSpeedHi])

/-- The output map after every LED pin has been written `v`. -/
def allPins (v : Int) (f : Nat → Int) : Nat → Int :=
  fun p => if ∃ i, LedPins i = p then v else f p

/-- Events of one level of the joint ramp-out. -/
def levelTrace (j : Nat) : List Event :=
  (List.finRange ledPinLength).map (fun i => Event.write (LedPins i) (j : Int))
    ++ [Event.delay dimSpeedLo]

/-- The sample `candleVals[k]` as a brightness (0 outside the table). -/
def sample (k : Nat) : Int := ((candleVals.getD k 0 : Nat) : Int)

/-- The output map after one flicker update with cursors `c`. -/
def flickerPwm (c : Fin ledPinLength → Nat) (f : Nat → Int) : Nat → Int :=
  fun p => match (List.finRange ledPinLength).find? (fun i => LedPins i = p) with
    | some i => sample (c i)
    | none => f p

/-- State after the flicker update of all channels at the cadence tick. -/
def flickered (s : State) : State :=
  { s with lastFlicker := s.clock,
           pwm := flickerPwm s.flickerIndexPerLed s.pwm,
           flickerIndexPerLed := fun i => (s.flickerIndexPerLed i + 1) % 64,
           log := s.log ++ (List.finRange ledPinLength).map
             (fun i => Event.write (LedPins i) (sample (s.flickerIndexPerLed i))) }

/-- The hold-timer checks of state 3, which follow the flicker update. -/
def holdTimer (inp : Inputs) (s : State) : State :=
  if inp.sensorLeft = 1 ∨ inp.sensorRight = 1 then { s with timer := s.clock }
  else if subU32 s.clock s.timer ≥ onTimeLight then { s with led_state := 4 }
  else s

/-- A HOLD state as left by a ramp-in: cursors as seeded, all channels at maximum. -/
def holdExample : State :=
  { initState with led_state := 3, flickerIndexPerLed := ![0, 7, 14, 21, 28, 35],
                   pwm := fun _ => 255 }

/-- Cursors in lockstep: every channel is the same number `k` of steps past its seed. -/
def Lockstep (s : State) : Prop :=
  ∃ k, ∀ i : Fin ledPinLength, s.flickerIndexPerLed i = (7 * i.val + k) % 64

/-- Every output pin shows a duty in [0, 255]. -/
def PwmInRange (s : State) : Prop := ∀ p, 0 ≤ s.pwm p ∧ s.pwm p ≤ 255

/-- Every brightness written in the trace lies in [0, 255]. -/
def WritesInRange (tr : List Event) : Prop :=
  ∀ pin v, Event.write pin v ∈ tr → 0 ≤ v ∧ v ≤ 255

/-- One state extends another by a trace whose writes are all in range. -/
def ExtendsInRange (s s' : State) : Prop :=
  ∃ tr, s'.log = s.log ++ tr ∧ WritesInRange tr

/-- The state one OFF call leaves when started from power-on with no trigger. -/
def darkExample : State :=
  { initState with
    log := (List.finRange ledPinLength).map (fun i => Event.write (LedPins i) 0) }

/-- The changes of `led_state` that one call of `reactiveLedLoop` can make. -/
def Transition (a b : Int) : Prop :=
  (a = 0 ∧ b = 0) ∨ (a = 0 ∧ b = 1) ∨ (a = 0 ∧ b = 2) ∨ (a = 1 ∧ b = 3) ∨
  (a = 2 ∧ b = 3) ∨ (a = 3 ∧ b = 3) ∨ (a = 3 ∧ b = 4) ∨ (a = 4 ∧ b = 0)

/-- The five defined values of `led_state`. -/
def Defined (a : Int) : Prop := a = 0 ∨ a = 1 ∨ a = 2 ∨ a = 3 ∨ a = 4

/-- The state with the stored light reading replaced. -/
def setLight (v : Int) (s : State) : State := { s with lightValue := v }

/-- Number of brightness writes in a trace. -/
def writeCount (tr : List Event) : Nat :=
  tr.countP (fun e => match e with
    | Event.write _ _ => true
    | Event.delay _ => false)

/-- Total of the delays in a trace, in ms. -/
def delayTotal (tr : List Event) : Nat :=
  (tr.map (fun e => match e with
    | Event.write _ _ => 0
    | Event.delay ms => ms)).sum

/-- The channel opposite to `i`: index `5 - i`. -/
def mirror (i : Fin ledPinLength) : Fin ledPinLength :=
  ⟨5 - i.val, Nat.lt_of_le_of_lt (Nat.sub_le 5 i.val) (by decide)⟩

/-- Body of the outer loop of `turnoff` at level `j`: write `j` to every channel, then wait. -/
def turnoffStep (s : State) (j : Nat) : State :=
  delay dimSpeedLo
    ((List.finRange ledPinLength).foldl (fun s i => analogWrite (LedPins i) (j : Int) s) s)

/-- Whether the flicker update runs in the call `tk` made in state `s`: the state is HOLD
and the cadence gate is open. -/
def gateFires (tk : Tick) (s : State) : Bool :=
  decide (s.led_state = 3 ∧ subU32 (tk.now % U32) s.lastFlicker ≥ FLICKER_DELAY_MS)

/-- Number of calls of a run in which the flicker update ran. -/
def fireCount : List Tick → State → Nat
  | [], _ => 0
  | tk :: tks, s =>
    (if gateFires tk s then 1 else 0) +
      (match tick tk s with
       | some s' => fireCount tks s'
       | none => 0)

/-- A state about to run the left-to-right ramp at clock 50, cursors as seeded. -/
def rampExample : State :=
  { initState with led_state := 1, flickerIndexPerLed := ![0, 7, 14, 21, 28, 35],
                   clock := 50 }

/-! ## Lemmas: the loops in closed form -/

theorem finRange_six : List.finRange ledPinLength = [0, 1, 2, 3, 4, 5] := by decide
theorem LedPins_injective : Function.Injective LedPins := by decide

theorem rampUp_foldl (pin n : Nat) (s : State) :
    (List.range (n + 1)).foldl (fun s (j : Nat) => delay dimSpeedHi (analogWrite pin (j : Int) s)) s
      = { s with pwm := Function.update s.pwm pin (n : Int),
                 clock := (s.clock + dimSpeedHi * (n + 1)) % U32,
                 log := s.log ++ rampUpTrace pin (n + 1) } := by
  induction n with
  | zero => simp [delay, analogWrite, rampUpTrace, List.range_succ]
  | succ n ih =>
    rw [List.range_succ, List.foldl_append, ih]
    simp only [List.foldl_cons, List.foldl_nil, delay, analogWrite, Function.update_idem,
      rampUpTrace, List.range_succ (n + 1), List.flatMap_append, List.flatMap_cons,
      List.flatMap_nil, List.append_assoc, List.append_nil, List.cons_append, List.nil_append,
      List.singleton_append]
    congr 1
    simp only [U32, dimSpeedHi]; omega

theorem rampUp_pos (pin n : Nat) (hn : 0 < n) (s : State) :
    (List.range n).foldl (fun s (j : Nat) => delay dimSpeedHi (analogWrite pin (j : Int) s)) s
      = { s with pwm := Function.update s.pwm pin ((n - 1 : Nat) : Int),
                 clock := (s.clock + dimSpeedHi * n) % U32,
                 log := s.log ++ rampUpTrace pin n } := by
  obtain ⟨m, rfl⟩ : ∃ m, n = m + 1 := ⟨n - 1, by omega⟩
  simpa using rampUp_foldl pin m s

theorem rampUp_256 (pin : Nat) (s : State) :
    (List.range 256).foldl (fun s (j : Nat) => delay dimSpeedHi (analogWrite pin (j : Int) s)) s
      = { s with pwm := Function.update s.pwm pin 255,
                 clock := (s.clock + 768) % U32,
                 log := s.log ++ rampUpTrace pin 256 } := by
  have h := rampUp_pos pin 256 (by omega) s
  rw [h]
  congr 1

theorem LedPins_vals : LedPins 0 = 3 ∧ LedPins 1 = 5 ∧ LedPins 2 = 6 ∧ LedPins 3 = 9 ∧
    LedPins 4 = 10 ∧ LedPins 5 = 11 := by decide

theorem allPins_LedPins (v : Int) (f : Nat → Int) (i : Fin ledPinLength) :
    allPins v f (LedPins i) = v := by
  simp [allPins]

theorem fin6_cases (i : Fin ledPinLength) :
    i = 0 ∨ i = 1 ∨ i = 2 ∨ i = 3 ∨ i = 4 ∨ i = 5 := by
  revert i; decide

theorem update_all_pins (v : Int) (f : Nat → Int) :
    Function.update (Function.update (Function.update (Function.update (Function.update
      (Function.update f (LedPins 0) v) (LedPins 1) v) (LedPins 2) v) (LedPins 3) v)
      (LedPins 4) v) (LedPins 5) v = allPins v f := by
  funext p
  by_cases h : ∃ i, LedPins i = p
  · obtain ⟨i, rfl⟩ := h
    rw [allPins_LedPins]
    obtain ⟨h0, h1, h2, h3, h4, h5⟩ := LedPins_vals
    rcases fin6_cases i with h | h | h | h | h | h <;> subst h <;>
      simp [Function.update, h0, h1, h2, h3, h4, h5]
  · have h' : ∀ i, p ≠ LedPins i := fun i hi => h ⟨i, hi.symm⟩
    simp [allPins, h, Function.update, h']
theorem clock_six (c : Nat) :
    ((((((c + 768) % U32 + 768) % U32 + 768) % U32 + 768) % U32 + 768) % U32 + 768) % U32
      = (c + 4608) % U32 := by
  simp only [U32]; omega

theorem turnonleft_eq (s : State) :
    turnonleft s = { s with led_state := 3,
                            timer := (s.clock + 4608) % U32,
                            clock := (s.clock + 4608) % U32,
                            pwm := allPins 255 s.pwm,
                            log := s.log ++ (List.finRange ledPinLength).flatMap
                              (fun i => rampUpTrace (LedPins i) 256) } := by
  unfold turnonleft
  simp only [rampUp_256]
  rw [finRange_six]
  simp only [List.foldl_cons, List.foldl_nil, millis, List.flatMap_cons, List.flatMap_nil,
    List.append_assoc, List.append_nil, update_all_pins, clock_six]

theorem allPins_allPins (v w : Int) (f : Nat → Int) : allPins v (allPins w f) = allPins v f := by
  funext p
  by_cases h : ∃ i, LedPins i = p <;> simp [allPins, h]

theorem allPins_other (v : Int) (f : Nat → Int) (p : Nat) (h : ∀ i, LedPins i ≠ p) :
    allPins v f p = f p := by
  simp [allPins, h]

theorem update_all_pins_rev (v : Int) (f : Nat → Int) :
    Function.update (Function.update (Function.update (Function.update (Function.update
      (Function.update f (LedPins 5) v) (LedPins 4) v) (LedPins 3) v) (LedPins 2) v)
      (LedPins 1) v) (LedPins 0) v = allPins v f := by
  funext p
  by_cases h : ∃ i, LedPins i = p
  · obtain ⟨i, rfl⟩ := h
    rw [allPins_LedPins]
    obtain ⟨h0, h1, h2, h3, h4, h5⟩ := LedPins_vals
    rcases fin6_cases i with h | h | h | h | h | h <;> subst h <;>
      simp [Function.update, h0, h1, h2, h3, h4, h5]
  · have h' : ∀ i, p ≠ LedPins i := fun i hi => h ⟨i, hi.symm⟩
    simp [allPins, h, Function.update, h']

theorem rev_index :
    (⟨ledPinLength - (0 : Fin ledPinLength).val - 1, by omega⟩ : Fin ledPinLength) = 5 ∧
    (⟨ledPinLength - (1 : Fin ledPinLength).val - 1, by omega⟩ : Fin ledPinLength) = 4 ∧
    (⟨ledPinLength - (2 : Fin ledPinLength).val - 1, by omega⟩ : Fin ledPinLength) = 3 ∧
    (⟨ledPinLength - (3 : Fin ledPinLength).val - 1, by omega⟩ : Fin ledPinLength) = 2 ∧
    (⟨ledPinLength - (4 : Fin ledPinLength).val - 1, by omega⟩ : Fin ledPinLength) = 1 ∧
    (⟨ledPinLength - (5 : Fin ledPinLength).val - 1, by omega⟩ : Fin ledPinLength) = 0 := by
  decide

theorem rev_vals :
    Fin.rev (0 : Fin ledPinLength) = 5 ∧ Fin.rev (1 : Fin ledPinLength) = 4 ∧
    Fin.rev (2 : Fin ledPinLength) = 3 ∧ Fin.rev (3 : Fin ledPinLength) = 2 ∧
    Fin.rev (4 : Fin ledPinLength) = 1 ∧ Fin.rev (5 : Fin ledPinLength) = 0 := by
  decide

theorem turnonright_eq (s : State) :
    turnonright s = { s with led_state := 3,
                             timer := (s.clock + 4608) % U32,
                             clock := (s.clock + 4608) % U32,
                             pwm := allPins 255 s.pwm,
                             log := s.log ++ (List.finRange ledPinLength).flatMap
                               (fun i => rampUpTrace (LedPins (Fin.rev i)) 256) } := by
  unfold turnonright
  simp only [rampUp_256]
  rw [finRange_six]
  obtain ⟨e0, e1, e2, e3, e4, e5⟩ := rev_index
  obtain ⟨r0, r1, r2, r3, r4, r5⟩ := rev_vals
  simp only [List.foldl_cons, List.foldl_nil, millis, List.flatMap_cons, List.flatMap_nil,
    List.append_assoc, List.append_nil, e0, e1, e2, e3, e4, e5, r0, r1, r2, r3, r4, r5,
    update_all_pins_rev, clock_six]

theorem shutoff_eq (s : State) :
    shutoff s = { s with led_state := 0,
                         pwm := allPins 0 s.pwm,
                         log := s.log ++ (List.finRange ledPinLength).map
                           (fun i => Event.write (LedPins i) 0) } := by
  unfold shutoff
  rw [finRange_six]
  simp only [List.foldl_cons, List.foldl_nil, digitalWrite, LOW, if_true, update_all_pins,
    List.map_cons, List.map_nil, List.append_assoc, List.cons_append, List.nil_append]

theorem level_step (j : Nat) (s : State) :
    delay dimSpeedLo
      ((List.finRange ledPinLength).foldl (fun s i => analogWrite (LedPins i) (j : Int) s) s)
    = { s with pwm := allPins (j : Int) s.pwm,
               clock := (s.clock + dimSpeedLo) % U32,
               log := s.log ++ levelTrace j } := by
  rw [levelTrace, finRange_six]
  simp only [List.foldl_cons, List.foldl_nil, analogWrite, delay, update_all_pins,
    List.map_cons, List.map_nil, List.append_assoc, List.cons_append, List.nil_append]

theorem rampDown_foldl (l : List Nat) (x : Nat) (s : State) :
    (l ++ [x]).foldl (fun s (j : Nat) => delay dimSpeedLo
      ((List.finRange ledPinLength).foldl (fun s i => analogWrite (LedPins i) (j : Int) s) s)) s
    = { s with pwm := allPins (x : Int) s.pwm,
               clock := (s.clock + dimSpeedLo * (l.length + 1)) % U32,
               log := s.log ++ (l ++ [x]).flatMap levelTrace } := by
  simp only [level_step]
  induction l generalizing s with
  | nil => simp
  | cons y l ih =>
    rw [List.cons_append, List.foldl_cons, ih]
    simp only [allPins_allPins, List.flatMap_cons, List.append_assoc, List.length_cons]
    congr 1
    simp only [U32, dimSpeedLo]; omega

theorem range_256_reverse :
    (List.range 256).reverse = (List.map Nat.succ (List.range 255)).reverse ++ [0] := by
  have h : List.range (255 + 1) = 0 :: List.map Nat.succ (List.range 255) :=
    List.range_succ_eq_map 255
  rw [show (256 : Nat) = 255 + 1 from rfl, h, List.reverse_cons]

theorem turnoff_eq (s : State) :
    turnoff s = { s with led_state := 0,
                         pwm := allPins 0 s.pwm,
                         clock := (s.clock + 1280) % U32,
                         log := s.log ++ (List.range 256).reverse.flatMap levelTrace } := by
  unfold turnoff
  rw [range_256_reverse, rampDown_foldl]
  simp only [List.length_reverse, List.length_map, List.length_range, dimSpeedLo,
    Nat.reduceAdd, Nat.reduceMul, Nat.cast_zero]

theorem candleVals_length : candleVals.length = 64 := by decide

theorem candleVals_lookup (k : Nat) (h : k < 64) :
    candleVals[k]? = some (candleVals.getD k 0) := by
  have hk : k < candleVals.length := by rw [candleVals_length]; exact h
  rw [List.getD_eq_getElem?_getD, List.getElem?_eq_getElem hk]
  rfl

theorem flickerChannel_eq (s : State) (i : Fin ledPinLength)
    (h : s.flickerIndexPerLed i < 64) :
    flickerChannel s i = some { s with
      pwm := Function.update s.pwm (LedPins i) (sample (s.flickerIndexPerLed i)),
      flickerIndexPerLed :=
        Function.update s.flickerIndexPerLed i ((s.flickerIndexPerLed i + 1) % 64),
      log := s.log ++ [Event.write (LedPins i) (sample (s.flickerIndexPerLed i))] } := by
  unfold flickerChannel
  rw [candleVals_lookup _ h]
  simp only [analogWrite, Function.update_same, candleVals_length, Function.update_idem, sample]
  split
  · have : s.flickerIndexPerLed i = 63 := by omega
    simp [this]
  · have : (s.flickerIndexPerLed i + 1) % 64 = s.flickerIndexPerLed i + 1 := by omega
    simp [this]

theorem flickerPwm_LedPins (c : Fin ledPinLength → Nat) (f : Nat → Int) (i : Fin ledPinLength) :
    flickerPwm c f (LedPins i) = sample (c i) := by
  unfold flickerPwm
  rw [finRange_six]
  obtain ⟨h0, h1, h2, h3, h4, h5⟩ := LedPins_vals
  rcases fin6_cases i with h | h | h | h | h | h <;> subst h <;>
    simp [List.find?, h0, h1, h2, h3, h4, h5]

theorem flickerPwm_other (c : Fin ledPinLength → Nat) (f : Nat → Int) (p : Nat)
    (h : ∀ i, LedPins i ≠ p) : flickerPwm c f p = f p := by
  unfold flickerPwm
  have : (List.finRange ledPinLength).find? (fun i => LedPins i = p) = none := by
    simp [List.find?_eq_none, h]
  rw [this]

theorem flicker_foldlM (s : State) (h : ∀ i, s.flickerIndexPerLed i < 64) :
    (List.finRange ledPinLength).foldlM flickerChannel s = some { s with
      pwm := flickerPwm s.flickerIndexPerLed s.pwm,
      flickerIndexPerLed := fun i => (s.flickerIndexPerLed i + 1) % 64,
      log := s.log ++ (List.finRange ledPinLength).map
        (fun i => Event.write (LedPins i) (sample (s.flickerIndexPerLed i))) } := by
  rw [finRange_six]
  simp only [List.foldlM_cons, List.foldlM_nil]
  rw [flickerChannel_eq s 0 (h 0)]
  simp only [Option.some_bind, Option.bind_eq_bind]
  rw [flickerChannel_eq _ 1 (by simpa [Function.update] using h 1)]
  simp only [Option.some_bind, Option.bind_eq_bind]
  rw [flickerChannel_eq _ 2 (by simpa [Function.update] using h 2)]
  simp only [Option.some_bind, Option.bind_eq_bind]
  rw [flickerChannel_eq _ 3 (by simpa [Function.update] using h 3)]
  simp only [Option.some_bind, Option.bind_eq_bind]
  rw [flickerChannel_eq _ 4 (by simpa [Function.update] using h 4)]
  simp only [Option.some_bind, Option.bind_eq_bind]
  rw [flickerChannel_eq _ 5 (by simpa [Function.update] using h 5)]
  simp only [Option.some_bind, Option.bind_eq_bind, pure, Option.some.injEq, State.mk.injEq,
    true_and, List.map_cons, List.map_nil, List.append_assoc, List.cons_append, List.nil_append]
  refine ⟨?_, ?_, ?_⟩
  · funext i
    rcases fin6_cases i with h | h | h | h | h | h <;> subst h <;> simp [Function.update]
  · funext p
    by_cases hp : ∃ i, LedPins i = p
    · obtain ⟨i, rfl⟩ := hp
      rw [flickerPwm_LedPins]
      obtain ⟨h0, h1, h2, h3, h4, h5⟩ := LedPins_vals
      rcases fin6_cases i with h | h | h | h | h | h <;> subst h <;>
        simp [Function.update, h0, h1, h2, h3, h4, h5]
    · have h' : ∀ i, p ≠ LedPins i := fun i hi => hp ⟨i, hi.symm⟩
      have h'' : ∀ i, LedPins i ≠ p := fun i hi => hp ⟨i, hi⟩
      rw [flickerPwm_other _ _ _ h'']
      simp [Function.update, h']
  · simp [Function.update]

theorem loop_off_left (inp : Inputs) (s : State) (h0 : s.led_state = 0)
    (hl : inp.sensorLeft = 1) (hd : inp.light ≥ lumidity) :
    reactiveLedLoop inp s = some { s with lightValue := inp.light, led_state := 1 } := by
  simp only [reactiveLedLoop, h0, hl, hd, if_true, and_self]

theorem loop_off_right (inp : Inputs) (s : State) (h0 : s.led_state = 0)
    (hl : inp.sensorLeft ≠ 1) (hr : inp.sensorRight = 1) (hd : inp.light ≥ lumidity) :
    reactiveLedLoop inp s = some { s with lightValue := inp.light, led_state := 2 } := by
  simp only [reactiveLedLoop, h0, hl, hr, hd, if_true, and_self, false_and, if_false]

theorem loop_off_stay (inp : Inputs) (s : State) (h0 : s.led_state = 0)
    (h : inp.light < lumidity ∨ (inp.sensorLeft ≠ 1 ∧ inp.sensorRight ≠ 1)) :
    reactiveLedLoop inp s = some { s with
      lightValue := inp.light, led_state := 0, pwm := allPins 0 s.pwm,
      log := s.log ++ (List.finRange ledPinLength).map (fun i => Event.write (LedPins i) 0) } := by
  have h1 : ¬ (inp.sensorLeft = 1 ∧ inp.light ≥ lumidity) := by
    rintro ⟨a, b⟩; rcases h with h | h
    · exact absurd b (not_le.mpr h)
    · exact h.1 a
  have h2 : ¬ (inp.sensorRight = 1 ∧ inp.light ≥ lumidity) := by
    rintro ⟨a, b⟩; rcases h with h | h
    · exact absurd b (not_le.mpr h)
    · exact h.2 a
  simp only [reactiveLedLoop, h0, h1, h2, if_true, if_false, shutoff_eq]

theorem loop_ramp_left (inp : Inputs) (s : State) (h1 : s.led_state = 1) :
    reactiveLedLoop inp s = some (turnonleft { s with lightValue := inp.light }) := by
  simp only [reactiveLedLoop, h1]
  rfl

theorem loop_ramp_right (inp : Inputs) (s : State) (h2 : s.led_state = 2) :
    reactiveLedLoop inp s = some (turnonright { s with lightValue := inp.light }) := by
  simp only [reactiveLedLoop, h2]
  rfl

theorem loop_ramp_down (inp : Inputs) (s : State) (h4 : s.led_state = 4) :
    reactiveLedLoop inp s = some (turnoff { s with lightValue := inp.light }) := by
  simp only [reactiveLedLoop, h4]
  rfl

theorem loop_other (inp : Inputs) (s : State) (h0 : s.led_state ≠ 0) (h1 : s.led_state ≠ 1)
    (h2 : s.led_state ≠ 2) (h3 : s.led_state ≠ 3) (h4 : s.led_state ≠ 4) :
    reactiveLedLoop inp s = some { s with lightValue := inp.light } := by
  simp only [reactiveLedLoop, h0, h1, h2, h3, h4, if_false]

theorem loop_hold_gate (inp : Inputs) (s : State) (h3 : s.led_state = 3)
    (hg : subU32 s.clock s.lastFlicker ≥ FLICKER_DELAY_MS)
    (hv : ∀ i, s.flickerIndexPerLed i < 64) :
    reactiveLedLoop inp s
      = some (holdTimer inp (flickered { s with lightValue := inp.light })) := by
  have hf := flicker_foldlM { s with lightValue := inp.light, lastFlicker := s.clock } hv
  have e0 : ¬ ((3 : Int) = 0) := by decide
  have e1 : ¬ ((3 : Int) = 1) := by decide
  have e2 : ¬ ((3 : Int) = 2) := by decide
  obtain ⟨ls, tm, lf, fi, lv, pw, ck, lg⟩ := s
  simp only at h3 hg hf
  subst h3
  simp only [reactiveLedLoop, millis, hg, if_true, if_false, e0, e1, e2]
  rw [hf]
  simp only [holdTimer, flickered, Option.some_bind, Option.bind_eq_bind]
  split <;> [rfl; (split <;> rfl)]

theorem loop_hold_idle (inp : Inputs) (s : State) (h3 : s.led_state = 3)
    (hg : ¬ subU32 s.clock s.lastFlicker ≥ FLICKER_DELAY_MS) :
    reactiveLedLoop inp s = some (holdTimer inp { s with lightValue := inp.light }) := by
  have e0 : ¬ ((3 : Int) = 0) := by decide
  have e1 : ¬ ((3 : Int) = 1) := by decide
  have e2 : ¬ ((3 : Int) = 2) := by decide
  obtain ⟨ls, tm, lf, fi, lv, pw, ck, lg⟩ := s
  simp only at h3 hg
  subst h3
  simp only [reactiveLedLoop, millis, hg, if_true, if_false, e0, e1, e2, holdTimer,
    Option.some_bind, Option.bind_eq_bind]
  split <;> [rfl; (split <;> rfl)]

/-- C1: from OFF with a light reading at or above the threshold 200, one call of
`reactiveLedLoop` returns with `led_state = 1` when the left sensor reads 1, and with
`led_state = 2` when the left sensor does not read 1 and the right sensor reads 1. -/
theorem C1_off_trigger_starts_ramp (inp : Inputs) (s : State)
    (hoff : s.led_state = 0) (hlight : inp.light ≥ 200) :
    (inp.sensorLeft = 1 →
      (reactiveLedLoop inp s).map (fun s' => s'.led_state) = some 1) ∧
    (inp.sensorLeft ≠ 1 → inp.sensorRight = 1 →
      (reactiveLedLoop inp s).map (fun s' => s'.led_state) = some 2) := by
  constructor
  · intro hl
    rw [loop_off_left inp s hoff hl hlight]
    rfl
  · intro hl hr
    rw [loop_off_right inp s hoff hl hr hlight]
    rfl

/-- C1 at the threshold itself: a reading of exactly 200 starts either ramp. -/
theorem C1_off_trigger_starts_ramp_witness :
    (reactiveLedLoop ⟨200, 1, 0⟩ initState).map (fun s' => s'.led_state) = some 1 ∧
    (reactiveLedLoop ⟨200, 0, 1⟩ initState).map (fun s' => s'.led_state) = some 2 :=
  ⟨(C1_off_trigger_starts_ramp ⟨200, 1, 0⟩ initState rfl (by decide)).1 rfl,
   (C1_off_trigger_starts_ramp ⟨200, 0, 1⟩ initState rfl (by decide)).2 (by decide) rfl⟩

/-- C2: from OFF, when the light reading is below 200 or neither sensor reads 1, one call
of `reactiveLedLoop` returns with `led_state = 0` and every channel at brightness 0,
whatever the outputs were before; a second call with the same samples returns the same
state again, only the write history growing by the six repeated writes of 0. -/
theorem C2_off_clamps_dark (inp : Inputs) (s : State) (hoff : s.led_state = 0)
    (h : inp.light < 200 ∨ (inp.sensorLeft ≠ 1 ∧ inp.sensorRight ≠ 1)) :
    ∃ s1, reactiveLedLoop inp s = some s1 ∧ s1.led_state = 0 ∧
      (∀ i, s1.brightness i = 0) ∧
      reactiveLedLoop inp s1 = some { s1 with
        log := s1.log ++ (List.finRange ledPinLength).map (fun i => Event.write (LedPins i) 0) } := by
  refine ⟨_, loop_off_stay inp s hoff h, rfl, ?_, ?_⟩
  · intro i
    exact allPins_LedPins 0 s.pwm i
  · rw [loop_off_stay inp _ rfl h]
    simp only [allPins_allPins]

/-- C2 on a lit strip in bright surroundings with both sensors triggered. -/
theorem C2_off_clamps_dark_witness :
    ∃ s1, reactiveLedLoop ⟨199, 1, 1⟩ { initState with pwm := fun _ => 255 } = some s1 ∧
      s1.led_state = 0 ∧ (∀ i, s1.brightness i = 0) ∧
      reactiveLedLoop ⟨199, 1, 1⟩ s1 = some { s1 with
        log := s1.log ++ (List.finRange ledPinLength).map (fun i => Event.write (LedPins i) 0) } :=
  C2_off_clamps_dark ⟨199, 1, 1⟩ { initState with pwm := fun _ => 255 } rfl (Or.inl (by decide))

/-- C3: from RAMP_LEFT_TO_RIGHT or RAMP_RIGHT_TO_LEFT, whatever the outputs were before,
one call of `reactiveLedLoop` returns with `led_state = 3`, every channel at brightness 255,
and the hold timer equal to the clock after the last step delay, that is 6 * 256 * 3 = 4608 ms
past the clock at which the ramp started (modulo 2^32), hence different from the start
value of any 32-bit clock. -/
theorem C3_ramp_in_ends_in_hold (inp : Inputs) (s : State)
    (h : s.led_state = 1 ∨ s.led_state = 2) :
    ∃ s', reactiveLedLoop inp s = some s' ∧ s'.led_state = 3 ∧
      (∀ i, s'.brightness i = 255) ∧
      s'.timer = s'.clock ∧ s'.clock = (s.clock + 4608) % U32 ∧
      (s.clock < U32 → s'.timer ≠ s.clock) := by
  have hne : s.clock < U32 → (s.clock + 4608) % U32 ≠ s.clock := by
    simp only [U32]; omega
  rcases h with h | h
  · refine ⟨_, loop_ramp_left inp s h, ?_⟩
    rw [turnonleft_eq]
    exact ⟨rfl, fun i => allPins_LedPins 255 s.pwm i, rfl, rfl, hne⟩
  · refine ⟨_, loop_ramp_right inp s h, ?_⟩
    rw [turnonright_eq]
    exact ⟨rfl, fun i => allPins_LedPins 255 s.pwm i, rfl, rfl, hne⟩

/-- C3 for a left-to-right ramp started at clock 50: the hold timer is 4658, not 50. -/
theorem C3_ramp_in_ends_in_hold_witness :
    ∃ s', reactiveLedLoop ⟨0, 0, 0⟩ { initState with led_state := 1, clock := 50 } = some s' ∧
      s'.led_state = 3 ∧ (∀ i, s'.brightness i = 255) ∧
      s'.timer = s'.clock ∧ s'.clock = (50 + 4608) % U32 ∧
      ((50 : Nat) < U32 → s'.timer ≠ 50) :=
  C3_ramp_in_ends_in_hold ⟨0, 0, 0⟩ { initState with led_state := 1, clock := 50 } (Or.inl rfl)

/-- C4: from RAMP_DOWN, whatever the outputs were before, one call of `reactiveLedLoop`
returns with every channel at brightness 0 and `led_state = 0`. -/
theorem C4_ramp_out_ends_in_off (inp : Inputs) (s : State) (h : s.led_state = 4) :
    ∃ s', reactiveLedLoop inp s = some s' ∧ (∀ i, s'.brightness i = 0) ∧ s'.led_state = 0 := by
  refine ⟨_, loop_ramp_down inp s h, ?_⟩
  rw [turnoff_eq]
  exact ⟨fun i => allPins_LedPins 0 s.pwm i, rfl⟩

/-- C4 on a fully lit strip. -/
theorem C4_ramp_out_ends_in_off_witness :
    ∃ s', reactiveLedLoop ⟨0, 0, 0⟩ { initState with led_state := 4, pwm := fun _ => 255 }
        = some s' ∧ (∀ i, s'.brightness i = 0) ∧ s'.led_state = 0 :=
  C4_ramp_out_ends_in_off ⟨0, 0, 0⟩ { initState with led_state := 4, pwm := fun _ => 255 } rfl

theorem subU32_of_le (a b : Nat) (hb : b ≤ a) (ha : a < U32) : subU32 a b = a - b := by
  simp only [subU32, U32] at *
  omega

theorem loop_hold (inp : Inputs) (s : State) (h3 : s.led_state = 3)
    (hdef : subU32 s.clock s.lastFlicker ≥ FLICKER_DELAY_MS → ∀ i, s.flickerIndexPerLed i < 64) :
    ∃ s1, reactiveLedLoop inp s = some (holdTimer inp s1) ∧
      s1.led_state = 3 ∧ s1.timer = s.timer ∧ s1.clock = s.clock := by
  by_cases hg : subU32 s.clock s.lastFlicker ≥ FLICKER_DELAY_MS
  · exact ⟨_, loop_hold_gate inp s h3 hg (hdef hg), h3, rfl, rfl⟩
  · exact ⟨_, loop_hold_idle inp s h3 hg, h3, rfl, rfl⟩

theorem holdTimer_quiet (inp : Inputs) (s : State)
    (hl : inp.sensorLeft ≠ 1) (hr : inp.sensorRight ≠ 1) :
    holdTimer inp s
      = if subU32 s.clock s.timer ≥ onTimeLight then { s with led_state := 4 } else s := by
  simp only [holdTimer, hl, hr, or_self, if_false]

theorem holdTimer_triggered (inp : Inputs) (s : State)
    (h : inp.sensorLeft = 1 ∨ inp.sensorRight = 1) :
    holdTimer inp s = { s with timer := s.clock } := by
  simp only [holdTimer, h, if_true]

/-- C5: in HOLD with hold timer `T = s.timer` and current time `t = s.clock`, `T ≤ t`,
when neither sensor reads 1, one call of `reactiveLedLoop` returns with `led_state = 4`
if and only if `t - T ≥ 10000`, and otherwise with `led_state = 3` and the hold timer
unchanged.  The call is taken where it is defined: if the cadence gate fires, the cursors
are valid table indices. -/
theorem C5_hold_timeout (inp : Inputs) (s : State) (h3 : s.led_state = 3)
    (hdef : subU32 s.clock s.lastFlicker ≥ FLICKER_DELAY_MS → ∀ i, s.flickerIndexPerLed i < 64)
    (hT : s.timer ≤ s.clock) (hclk : s.clock < U32)
    (hl : inp.sensorLeft ≠ 1) (hr : inp.sensorRight ≠ 1) :
    ∃ s', reactiveLedLoop inp s = some s' ∧
      (s'.led_state = 4 ↔ s.clock - s.timer ≥ 10000) ∧
      (s.clock - s.timer < 10000 → s'.led_state = 3 ∧ s'.timer = s.timer) := by
  obtain ⟨s1, hs1, hled, htm, hck⟩ := loop_hold inp s h3 hdef
  refine ⟨_, hs1, ?_⟩
  rw [holdTimer_quiet inp s1 hl hr, hck, htm, subU32_of_le _ _ hT hclk]
  by_cases hge : s.clock - s.timer ≥ onTimeLight
  · have hge' : s.clock - s.timer ≥ 10000 := hge
    rw [if_pos hge]
    exact ⟨⟨fun _ => hge', fun _ => rfl⟩, fun hlt => absurd hge' (not_le.mpr hlt)⟩
  · have hge' : ¬ s.clock - s.timer ≥ 10000 := hge
    rw [if_neg hge]
    refine ⟨⟨fun h4 => ?_, fun h => absurd h hge'⟩, fun _ => ⟨hled, htm⟩⟩
    rw [hled] at h4
    exact absurd h4 (by decide)

/-- C5 with the hold timer at 1000: no transition at time 10999, the transition at 11000. -/
theorem C5_hold_timeout_witness :
    (∃ s', reactiveLedLoop ⟨0, 0, 0⟩ { holdExample with timer := 1000, clock := 10999 } = some s' ∧
      s'.led_state = 3 ∧ s'.timer = 1000) ∧
    (∃ s', reactiveLedLoop ⟨0, 0, 0⟩ { holdExample with timer := 1000, clock := 11000 } = some s' ∧
      s'.led_state = 4) := by
  obtain ⟨a, ha, _, ha2⟩ := C5_hold_timeout ⟨0, 0, 0⟩
    { holdExample with timer := 1000, clock := 10999 } rfl (fun _ => by decide) (by decide)
    (by decide) (by decide) (by decide)
  obtain ⟨b, hb, hb1, _⟩ := C5_hold_timeout ⟨0, 0, 0⟩
    { holdExample with timer := 1000, clock := 11000 } rfl (fun _ => by decide) (by decide)
    (by decide) (by decide) (by decide)
  exact ⟨⟨a, ha, ha2 (by decide)⟩, ⟨b, hb, hb1.mpr (by decide)⟩⟩

theorem holdTimer_pwm (inp : Inputs) (s : State) : (holdTimer inp s).pwm = s.pwm := by
  unfold holdTimer
  split <;> [rfl; (split <;> rfl)]

theorem holdTimer_cursor (inp : Inputs) (s : State) :
    (holdTimer inp s).flickerIndexPerLed = s.flickerIndexPerLed := by
  unfold holdTimer
  split <;> [rfl; (split <;> rfl)]

theorem sample_lookup (k : Nat) (h : k < 64) :
    (candleVals[k]?).map (fun b : Nat => (b : Int)) = some (sample k) := by
  rw [candleVals_lookup k h]
  rfl

/-- C6: in HOLD at any current time `t = s.clock`, if the left or the right sensor reads 1,
one call of `reactiveLedLoop` returns with the hold timer equal to `t` and `led_state = 3`,
whatever the previous timer value was: no assumption is made on the time elapsed since
then, so the trigger wins over the timeout.  The call is taken where it is defined: if the
cadence gate fires, the cursors are valid table indices. -/
theorem C6_hold_trigger_resets_timer (inp : Inputs) (s : State) (h3 : s.led_state = 3)
    (hdef : subU32 s.clock s.lastFlicker ≥ FLICKER_DELAY_MS → ∀ i, s.flickerIndexPerLed i < 64)
    (htrig : inp.sensorLeft = 1 ∨ inp.sensorRight = 1) :
    ∃ s', reactiveLedLoop inp s = some s' ∧ s'.timer = s.clock ∧ s'.led_state = 3 := by
  obtain ⟨s1, hs1, hled, _, hck⟩ := loop_hold inp s h3 hdef
  refine ⟨_, hs1, ?_⟩
  rw [holdTimer_triggered inp s1 htrig]
  exact ⟨hck, hled⟩

/-- C6 with the right sensor triggered 50000 ms after the last timer value 0: the strip
stays in HOLD and the timer becomes 50000. -/
theorem C6_hold_trigger_resets_timer_witness :
    ∃ s', reactiveLedLoop ⟨0, 0, 1⟩ { holdExample with timer := 0, clock := 50000 } = some s' ∧
      s'.timer = 50000 ∧ s'.led_state = 3 :=
  C6_hold_trigger_resets_timer ⟨0, 0, 1⟩ { holdExample with timer := 0, clock := 50000 } rfl
    (fun _ => by decide) (Or.inr rfl)

/-- C7: in HOLD with valid cursors (below 64), when the cadence gate fires, one call of
`reactiveLedLoop` returns a state in which every channel `i` shows `candleVals[c i]`, with
`c i` its cursor before the call, and has cursor `(c i + 1) mod 64`. -/
theorem C7_flicker_update (inp : Inputs) (s : State) (h3 : s.led_state = 3)
    (hv : ∀ i, s.flickerIndexPerLed i < 64)
    (hg : subU32 s.clock s.lastFlicker ≥ FLICKER_DELAY_MS) :
    ∃ s', reactiveLedLoop inp s = some s' ∧ ∀ i,
      (candleVals[s.flickerIndexPerLed i]?).map (fun b : Nat => (b : Int))
        = some (s'.brightness i) ∧
      s'.flickerIndexPerLed i = (s.flickerIndexPerLed i + 1) % 64 := by
  refine ⟨_, loop_hold_gate inp s h3 hg hv, fun i => ⟨?_, ?_⟩⟩
  · rw [sample_lookup _ (hv i), State.brightness, holdTimer_pwm]
    simp only [flickered, flickerPwm_LedPins]
  · rw [holdTimer_cursor]
    rfl

/-- C7 on the seeded cursors 0, 7, 14, 21, 28, 35: they become 1, 8, 15, 22, 29, 36 and the
channels show 236, 228, 195, 216, 220, 243. -/
theorem C7_flicker_update_witness :
    ∃ s', reactiveLedLoop ⟨0, 0, 0⟩ { holdExample with clock := 11000 } = some s' ∧
      (List.finRange ledPinLength).map s'.flickerIndexPerLed = [1, 8, 15, 22, 29, 36] ∧
      (List.finRange ledPinLength).map s'.brightness = [236, 228, 195, 216, 220, 243] := by
  obtain ⟨s', h, hs⟩ := C7_flicker_update ⟨0, 0, 0⟩ { holdExample with clock := 11000 } rfl
    (by decide) (by decide)
  have hc : ∀ i, s'.flickerIndexPerLed i
      = (({ holdExample with clock := 11000 } : State).flickerIndexPerLed i + 1) % 64 :=
    fun i => (hs i).2
  have hb : ∀ i v,
      (candleVals[({ holdExample with clock := 11000 } : State).flickerIndexPerLed i]?).map
        (fun b : Nat => (b : Int)) = some v → s'.brightness i = v :=
    fun i v hv => Option.some.inj (((hs i).1).symm.trans hv)
  refine ⟨s', h, ?_, ?_⟩
  · rw [finRange_six]
    simp only [List.map_cons, List.map_nil, hc]
    decide
  · rw [finRange_six]
    simp only [List.map_cons, List.map_nil]
    rw [hb 0 236 (by decide), hb 1 228 (by decide), hb 2 195 (by decide),
      hb 3 216 (by decide), hb 4 220 (by decide), hb 5 243 (by decide)]

theorem reactiveLedSetup_eq (s : State) :
    reactiveLedSetup s = { s with flickerIndexPerLed := fun i => (i.val * 7) % 64 } := by
  unfold reactiveLedSetup
  rw [finRange_six]
  simp only [List.foldl_cons, List.foldl_nil, candleVals_length, State.mk.injEq, true_and,
    and_true]
  funext i
  rcases fin6_cases i with h | h | h | h | h | h <;> subst h <;> simp [Function.update]

/-- C8: `reactiveLedSetup` seeds the cursor of every channel `i` with `(7 * i) mod 64`; the
seeded cursors are 0, 7, 14, 21, 28, 35, pairwise distinct, and the same from every prior
state (whatever its clock, history and previous cursors); the function reads no sensor. -/
theorem C8_setup_seeds_cursors :
    (∀ (s : State) (i : Fin ledPinLength),
      (reactiveLedSetup s).flickerIndexPerLed i = (7 * i.val) % 64) ∧
    (∀ s : State, (List.finRange ledPinLength).map (reactiveLedSetup s).flickerIndexPerLed
      = [0, 7, 14, 21, 28, 35]) ∧
    (∀ s : State, Function.Injective (reactiveLedSetup s).flickerIndexPerLed) ∧
    (∀ s1 s2 : State,
      (reactiveLedSetup s1).flickerIndexPerLed = (reactiveLedSetup s2).flickerIndexPerLed) := by
  refine ⟨fun s i => ?_, fun s => ?_, fun s => ?_, fun s1 s2 => ?_⟩
  · rw [reactiveLedSetup_eq, Nat.mul_comm]
  · rw [reactiveLedSetup_eq, finRange_six]
    simp only [List.map_cons, List.map_nil]
    rfl
  · rw [reactiveLedSetup_eq]
    intro i j hij
    have h : (i.val * 7) % 64 = (j.val * 7) % 64 := hij
    have hi : i.val < 6 := i.isLt
    have hj : j.val < 6 := j.isLt
    clear hij
    apply Fin.ext
    omega
  · rw [reactiveLedSetup_eq, reactiveLedSetup_eq]

theorem lockstep_setup (s : State) : Lockstep (reactiveLedSetup s) := by
  refine ⟨0, fun i => ?_⟩
  rw [reactiveLedSetup_eq, Nat.add_zero, Nat.mul_comm]

theorem lockstep_valid (s : State) (h : Lockstep s) : ∀ i, s.flickerIndexPerLed i < 64 := by
  obtain ⟨k, hk⟩ := h
  intro i
  rw [hk i]
  exact Nat.mod_lt _ (by decide)

theorem lockstep_distinct (s : State) (h : Lockstep s) (i j : Fin ledPinLength)
    (hij : i ≠ j) : s.flickerIndexPerLed i ≠ s.flickerIndexPerLed j := by
  obtain ⟨k, hk⟩ := h
  rw [hk i, hk j]
  intro heq
  have hi : i.val < 6 := i.isLt
  have hj : j.val < 6 := j.isLt
  apply hij
  apply Fin.ext
  omega

theorem lockstep_advance (s s' : State) (h : Lockstep s)
    (hc : s'.flickerIndexPerLed = fun i => (s.flickerIndexPerLed i + 1) % 64) :
    Lockstep s' := by
  obtain ⟨k, hk⟩ := h
  refine ⟨k + 1, fun i => ?_⟩
  rw [hc]
  simp only [hk i]
  omega

theorem lockstep_same (s s' : State) (h : Lockstep s)
    (hc : s'.flickerIndexPerLed = s.flickerIndexPerLed) : Lockstep s' := by
  obtain ⟨k, hk⟩ := h
  exact ⟨k, fun i => by rw [hc]; exact hk i⟩

theorem holdTimer_lockstep (inp : Inputs) (s : State) (h : Lockstep s) :
    Lockstep (holdTimer inp s) :=
  lockstep_same s _ h (holdTimer_cursor inp s)

theorem loop_lockstep (inp : Inputs) (s : State) (h : Lockstep s) :
    ∃ s', reactiveLedLoop inp s = some s' ∧ Lockstep s' := by
  by_cases h0 : s.led_state = 0
  · by_cases hd : inp.light ≥ lumidity
    · by_cases hl : inp.sensorLeft = 1
      · exact ⟨_, loop_off_left inp s h0 hl hd, lockstep_same s _ h rfl⟩
      · by_cases hr : inp.sensorRight = 1
        · exact ⟨_, loop_off_right inp s h0 hl hr hd, lockstep_same s _ h rfl⟩
        · exact ⟨_, loop_off_stay inp s h0 (Or.inr ⟨hl, hr⟩), lockstep_same s _ h rfl⟩
    · exact ⟨_, loop_off_stay inp s h0 (Or.inl (not_le.mp hd)), lockstep_same s _ h rfl⟩
  by_cases h1 : s.led_state = 1
  · refine ⟨_, loop_ramp_left inp s h1, lockstep_same s _ h ?_⟩
    rw [turnonleft_eq]
  by_cases h2 : s.led_state = 2
  · refine ⟨_, loop_ramp_right inp s h2, lockstep_same s _ h ?_⟩
    rw [turnonright_eq]
  by_cases h3 : s.led_state = 3
  · by_cases hg : subU32 s.clock s.lastFlicker ≥ FLICKER_DELAY_MS
    · refine ⟨_, loop_hold_gate inp s h3 hg (lockstep_valid s h), ?_⟩
      exact holdTimer_lockstep inp _ (lockstep_advance s _ h rfl)
    · refine ⟨_, loop_hold_idle inp s h3 hg, ?_⟩
      exact holdTimer_lockstep inp _ (lockstep_same s _ h rfl)
  by_cases h4 : s.led_state = 4
  · refine ⟨_, loop_ramp_down inp s h4, lockstep_same s _ h ?_⟩
    rw [turnoff_eq]
  · exact ⟨_, loop_other inp s h0 h1 h2 h3 h4, lockstep_same s _ h rfl⟩

theorem run_lockstep (ticks : List Tick) (s : State) (h : Lockstep s) :
    ∃ s', run ticks s = some s' ∧ Lockstep s' := by
  induction ticks generalizing s with
  | nil => exact ⟨s, rfl, h⟩
  | cons tk tks ih =>
    obtain ⟨s1, hs1, hl1⟩ :=
      loop_lockstep tk.inp { s with clock := tk.now % U32 } (lockstep_same s _ h rfl)
    obtain ⟨s2, hs2, hl2⟩ := ih s1 hl1
    refine ⟨s2, ?_, hl2⟩
    simp only [run, tick, hs1, Option.some_bind, hs2]

/-- C9: after `reactiveLedSetup` (from any prior state) and any sequence of calls of
`reactiveLedLoop`, with any clock values and sensor samples, every call returns and in the
state reached any two distinct channels have different cursors.  This holds for runs of
every length, in particular for HOLD periods shorter than 64 * 7 cadence ticks. -/
theorem C9_phase_independence (s0 : State) (ticks : List Tick) :
    ∃ s, run ticks (reactiveLedSetup s0) = some s ∧
      ∀ i j : Fin ledPinLength, i ≠ j → s.flickerIndexPerLed i ≠ s.flickerIndexPerLed j := by
  obtain ⟨s, hs, hl⟩ := run_lockstep ticks (reactiveLedSetup s0) (lockstep_setup s0)
  exact ⟨s, hs, lockstep_distinct s hl⟩

/-- C9 on a run through OFF, a left-to-right ramp and two HOLD calls. -/
theorem C9_phase_independence_witness :
    ∃ s, run [⟨0, ⟨200, 1, 0⟩⟩, ⟨10, ⟨0, 0, 0⟩⟩, ⟨5000, ⟨0, 0, 0⟩⟩, ⟨5040, ⟨0, 0, 0⟩⟩]
        (reactiveLedSetup initState) = some s ∧
      ∀ i j : Fin ledPinLength, i ≠ j → s.flickerIndexPerLed i ≠ s.flickerIndexPerLed j :=
  C9_phase_independence initState
    [⟨0, ⟨200, 1, 0⟩⟩, ⟨10, ⟨0, 0, 0⟩⟩, ⟨5000, ⟨0, 0, 0⟩⟩, ⟨5040, ⟨0, 0, 0⟩⟩]

theorem candleVals_le : ∀ b ∈ candleVals, b ≤ 255 := by decide

theorem sample_range (k : Nat) : 0 ≤ sample k ∧ sample k ≤ 255 := by
  unfold sample
  rw [List.getD_eq_getElem?_getD]
  cases h : candleVals[k]? with
  | none => simp
  | some b =>
    have hb := candleVals_le b (List.getElem?_mem h)
    simp only [Option.getD_some]
    omega

theorem extends_refl (s : State) : ExtendsInRange s s :=
  ⟨[], by simp, fun _ _ h => by simp at h⟩

theorem extends_trans (a b c : State) (h1 : ExtendsInRange a b) (h2 : ExtendsInRange b c) :
    ExtendsInRange a c := by
  obtain ⟨t1, e1, w1⟩ := h1
  obtain ⟨t2, e2, w2⟩ := h2
  refine ⟨t1 ++ t2, by rw [e2, e1, List.append_assoc], fun pin v h => ?_⟩
  rcases List.mem_append.mp h with h | h
  · exact w1 pin v h
  · exact w2 pin v h

theorem writes_rampUpTrace (pin : Nat) : WritesInRange (rampUpTrace pin 256) := by
  intro p v h
  simp only [rampUpTrace, List.mem_flatMap, List.mem_range, List.mem_cons, Event.write.injEq,
    List.mem_singleton, reduceCtorEq, or_false, List.not_mem_nil] at h
  obtain ⟨j, hj, _, rfl⟩ := h
  omega

theorem writes_levelTrace (j : Nat) (hj : j < 256) : WritesInRange (levelTrace j) := by
  intro p v h
  simp only [levelTrace, List.mem_append, List.mem_map, Event.write.injEq, List.mem_singleton,
    reduceCtorEq, or_false] at h
  obtain ⟨i, _, _, rfl⟩ := h
  omega

theorem writes_flatMap {α : Type} (l : List α) (f : α → List Event)
    (h : ∀ a ∈ l, WritesInRange (f a)) : WritesInRange (l.flatMap f) := by
  intro p v hm
  obtain ⟨a, ha, hv⟩ := List.mem_flatMap.mp hm
  exact h a ha p v hv

theorem writes_map {α : Type} (l : List α) (pin : α → Nat) (val : α → Int)
    (h : ∀ a ∈ l, 0 ≤ val a ∧ val a ≤ 255) :
    WritesInRange (l.map (fun a => Event.write (pin a) (val a))) := by
  intro p v hm
  obtain ⟨a, ha, hv⟩ := List.mem_map.mp hm
  simp only [Event.write.injEq] at hv
  obtain ⟨_, rfl⟩ := hv
  exact h a ha

theorem flickerChannel_extends (s s' : State) (i : Fin ledPinLength)
    (h : flickerChannel s i = some s') : ExtendsInRange s s' := by
  unfold flickerChannel at h
  cases hb : candleVals[s.flickerIndexPerLed i]? with
  | none => rw [hb] at h; exact absurd h (by simp)
  | some b =>
    have hle := candleVals_le b (List.getElem?_mem hb)
    rw [hb] at h
    have hw : WritesInRange [Event.write (LedPins i) (b : Int)] := by
      intro p v hm
      simp only [List.mem_singleton, Event.write.injEq] at hm
      obtain ⟨_, rfl⟩ := hm
      omega
    simp only [analogWrite] at h
    split at h
    · have e := Option.some.inj h
      exact ⟨_, by rw [← e], hw⟩
    · have e := Option.some.inj h
      exact ⟨_, by rw [← e], hw⟩

theorem foldlM_extends (l : List (Fin ledPinLength)) (s s' : State)
    (h : l.foldlM flickerChannel s = some s') : ExtendsInRange s s' := by
  induction l generalizing s with
  | nil =>
    simp only [List.foldlM_nil, pure, Option.some.injEq] at h
    rw [← h]
    exact extends_refl s
  | cons i l ih =>
    rw [List.foldlM_cons] at h
    obtain ⟨a, ha, hrest⟩ := Option.bind_eq_some.mp h
    exact extends_trans s a s' (flickerChannel_extends s a i ha) (ih a hrest)

theorem holdTimer_log (inp : Inputs) (s : State) : (holdTimer inp s).log = s.log := by
  unfold holdTimer
  split <;> [rfl; (split <;> rfl)]

theorem loop_hold_bind (inp : Inputs) (s : State) (h3 : s.led_state = 3) :
    reactiveLedLoop inp s
      = ((if subU32 s.clock s.lastFlicker ≥ FLICKER_DELAY_MS then
            (List.finRange ledPinLength).foldlM flickerChannel
              { s with lightValue := inp.light, lastFlicker := s.clock }
          else some { s with lightValue := inp.light }).bind
          (fun y => some (holdTimer inp y))) := by
  by_cases hg : subU32 s.clock s.lastFlicker ≥ FLICKER_DELAY_MS
  · have e0 : ¬ ((3 : Int) = 0) := by decide
    have e1 : ¬ ((3 : Int) = 1) := by decide
    have e2 : ¬ ((3 : Int) = 2) := by decide
    obtain ⟨ls, tm, lf, fi, lv, pw, ck, lg⟩ := s
    simp only at h3 hg
    subst h3
    simp only [reactiveLedLoop, millis, hg, if_true, if_false, e0, e1, e2, Option.bind_eq_bind]
    congr 1
    funext y
    simp only [holdTimer]
    split <;> [rfl; (split <;> rfl)]
  · rw [loop_hold_idle inp s h3 hg, if_neg hg]
    rfl

theorem loop_extends (inp : Inputs) (s s' : State) (h : reactiveLedLoop inp s = some s') :
    ExtendsInRange s s' := by
  by_cases h0 : s.led_state = 0
  · by_cases hd : inp.light ≥ lumidity
    · by_cases hl : inp.sensorLeft = 1
      · rw [loop_off_left inp s h0 hl hd] at h
        rw [← Option.some.inj h]
        exact extends_refl s
      · by_cases hr : inp.sensorRight = 1
        · rw [loop_off_right inp s h0 hl hr hd] at h
          rw [← Option.some.inj h]
          exact extends_refl s
        · rw [loop_off_stay inp s h0 (Or.inr ⟨hl, hr⟩)] at h
          rw [← Option.some.inj h]
          exact ⟨_, rfl, writes_map _ _ (fun _ => 0) (fun _ _ => ⟨le_refl 0, show (0 : Int) ≤ 255 by decide⟩)⟩
    · rw [loop_off_stay inp s h0 (Or.inl (not_le.mp hd))] at h
      rw [← Option.some.inj h]
      exact ⟨_, rfl, writes_map _ _ (fun _ => 0) (fun _ _ => ⟨le_refl 0, show (0 : Int) ≤ 255 by decide⟩)⟩
  by_cases h1 : s.led_state = 1
  · rw [loop_ramp_left inp s h1, turnonleft_eq] at h
    rw [← Option.some.inj h]
    exact ⟨_, rfl, writes_flatMap _ _ (fun i _ => writes_rampUpTrace _)⟩
  by_cases h2 : s.led_state = 2
  · rw [loop_ramp_right inp s h2, turnonright_eq] at h
    rw [← Option.some.inj h]
    exact ⟨_, rfl, writes_flatMap _ _ (fun i _ => writes_rampUpTrace _)⟩
  by_cases h3 : s.led_state = 3
  · rw [loop_hold_bind inp s h3] at h
    obtain ⟨y, hy, hs'⟩ := Option.bind_eq_some.mp h
    have e := Option.some.inj hs'
    have hext : ExtendsInRange s y := by
      split at hy
      · obtain ⟨tr, htr, hw⟩ := foldlM_extends _ _ _ hy
        exact ⟨tr, htr, hw⟩
      · rw [← Option.some.inj hy]
        exact extends_refl s
    obtain ⟨tr, htr, hw⟩ := hext
    exact ⟨tr, by rw [← e, holdTimer_log, htr], hw⟩
  by_cases h4 : s.led_state = 4
  · rw [loop_ramp_down inp s h4, turnoff_eq] at h
    rw [← Option.some.inj h]
    refine ⟨_, rfl, writes_flatMap _ _ (fun j hj => writes_levelTrace j ?_)⟩
    simpa using hj
  · rw [loop_other inp s h0 h1 h2 h3 h4] at h
    rw [← Option.some.inj h]
    exact extends_refl s

theorem allPins_range (v : Int) (f : Nat → Int) (hv : 0 ≤ v ∧ v ≤ 255)
    (hf : ∀ p, 0 ≤ f p ∧ f p ≤ 255) : ∀ p, 0 ≤ allPins v f p ∧ allPins v f p ≤ 255 := by
  intro p
  unfold allPins
  split
  · exact hv
  · exact hf p

theorem flickerPwm_range (c : Fin ledPinLength → Nat) (f : Nat → Int)
    (hf : ∀ p, 0 ≤ f p ∧ f p ≤ 255) : ∀ p, 0 ≤ flickerPwm c f p ∧ flickerPwm c f p ≤ 255 := by
  intro p
  unfold flickerPwm
  split
  · exact sample_range _
  · exact hf p

theorem holdTimer_range (inp : Inputs) (s : State) (h : PwmInRange s) :
    PwmInRange (holdTimer inp s) := by
  intro p
  rw [holdTimer_pwm]
  exact h p

theorem loop_range (inp : Inputs) (s : State) (hl : Lockstep s) (hr : PwmInRange s) :
    ∃ s', reactiveLedLoop inp s = some s' ∧ Lockstep s' ∧ PwmInRange s' := by
  obtain ⟨s', hs', hl'⟩ := loop_lockstep inp s hl
  refine ⟨s', hs', hl', ?_⟩
  by_cases h0 : s.led_state = 0
  · by_cases hd : inp.light ≥ lumidity
    · by_cases hle : inp.sensorLeft = 1
      · rw [loop_off_left inp s h0 hle hd] at hs'
        rw [← Option.some.inj hs']
        exact hr
      · by_cases hri : inp.sensorRight = 1
        · rw [loop_off_right inp s h0 hle hri hd] at hs'
          rw [← Option.some.inj hs']
          exact hr
        · rw [loop_off_stay inp s h0 (Or.inr ⟨hle, hri⟩)] at hs'
          rw [← Option.some.inj hs']
          exact allPins_range 0 s.pwm ⟨le_refl 0, by decide⟩ hr
    · rw [loop_off_stay inp s h0 (Or.inl (not_le.mp hd))] at hs'
      rw [← Option.some.inj hs']
      exact allPins_range 0 s.pwm ⟨le_refl 0, by decide⟩ hr
  by_cases h1 : s.led_state = 1
  · rw [loop_ramp_left inp s h1, turnonleft_eq] at hs'
    rw [← Option.some.inj hs']
    exact allPins_range 255 s.pwm ⟨by decide, le_refl 255⟩ hr
  by_cases h2 : s.led_state = 2
  · rw [loop_ramp_right inp s h2, turnonright_eq] at hs'
    rw [← Option.some.inj hs']
    exact allPins_range 255 s.pwm ⟨by decide, le_refl 255⟩ hr
  by_cases h3 : s.led_state = 3
  · by_cases hg : subU32 s.clock s.lastFlicker ≥ FLICKER_DELAY_MS
    · rw [loop_hold_gate inp s h3 hg (lockstep_valid s hl)] at hs'
      rw [← Option.some.inj hs']
      exact holdTimer_range inp _ (flickerPwm_range _ s.pwm hr)
    · rw [loop_hold_idle inp s h3 hg] at hs'
      rw [← Option.some.inj hs']
      exact holdTimer_range inp _ hr
  by_cases h4 : s.led_state = 4
  · rw [loop_ramp_down inp s h4, turnoff_eq] at hs'
    rw [← Option.some.inj hs']
    exact allPins_range 0 s.pwm ⟨le_refl 0, by decide⟩ hr
  · rw [loop_other inp s h0 h1 h2 h3 h4] at hs'
    rw [← Option.some.inj hs']
    exact hr

theorem run_range (ticks : List Tick) (s : State) (hl : Lockstep s) (hr : PwmInRange s) :
    ∃ s', run ticks s = some s' ∧ Lockstep s' ∧ PwmInRange s' := by
  induction ticks generalizing s with
  | nil => exact ⟨s, rfl, hl, hr⟩
  | cons tk tks ih =>
    obtain ⟨s1, hs1, hl1, hr1⟩ :=
      loop_range tk.inp { s with clock := tk.now % U32 } (lockstep_same s _ hl rfl) hr
    obtain ⟨s2, hs2, hl2, hr2⟩ := ih s1 hl1 hr1
    refine ⟨s2, ?_, hl2, hr2⟩
    simp only [run, tick, hs1, Option.some_bind, hs2]

theorem setup_range : PwmInRange (reactiveLedSetup initState) := by
  intro p
  rw [reactiveLedSetup_eq]
  exact ⟨le_refl 0, show (0 : Int) ≤ 255 by decide⟩

/-- C10: every brightness value that a call of `reactiveLedLoop` writes, from any state and
with any samples (the history of the returned state extends the history before the call by
a trace that records each `analogWrite` and `digitalWrite` of the call, the steps of the
blocking ramps and the flicker samples included), lies in [0, 255]; and after
`reactiveLedSetup` from power-on and any sequence of calls, every call returns and every
channel shows a brightness in [0, 255]. -/
theorem C10_brightness_range :
    (∀ (inp : Inputs) (s s' : State), reactiveLedLoop inp s = some s' →
      ∃ tr, s'.log = s.log ++ tr ∧
        ∀ pin v, Event.write pin v ∈ tr → 0 ≤ v ∧ v ≤ 255) ∧
    (∀ ticks : List Tick, ∃ s, run ticks (reactiveLedSetup initState) = some s ∧
      ∀ i, 0 ≤ s.brightness i ∧ s.brightness i ≤ 255) := by
  refine ⟨fun inp s s' h => loop_extends inp s s' h, fun ticks => ?_⟩
  obtain ⟨s, hs, _, hr⟩ :=
    run_range ticks (reactiveLedSetup initState) (lockstep_setup initState) setup_range
  exact ⟨s, hs, fun i => hr (LedPins i)⟩

/-- C10 on the first OFF call after power-on, which writes 0 to the six pins. -/
theorem C10_brightness_range_witness :
    ∃ tr, darkExample.log = initState.log ++ tr ∧
      ∀ pin v, Event.write pin v ∈ tr → 0 ≤ v ∧ v ≤ 255 :=
  C10_brightness_range.1 ⟨0, 0, 0⟩ initState darkExample (by
    rw [loop_off_stay ⟨0, 0, 0⟩ initState rfl (Or.inl (by decide))]
    have hp : allPins 0 initState.pwm = initState.pwm := by
      funext p
      simp [allPins, initState]
    rw [hp]
    rfl)

/-- C11: in every state reached from `reactiveLedSetup` (called in any prior state) by any
sequence of calls of `reactiveLedLoop`, every call of the sequence returns, every cursor is
below 64, the length of `candleVals`, so each lookup `candleVals[flickerIndexPerLed[i]]`
succeeds, and a further call with any samples returns as well: the out-of-bounds branch of
the embedding is never taken. -/
theorem C11_cursor_validity (s0 : State) (ticks : List Tick) :
    ∃ s, run ticks (reactiveLedSetup s0) = some s ∧
      (∀ i, s.flickerIndexPerLed i < candleVals.length) ∧
      (∀ i, ∃ b, candleVals[s.flickerIndexPerLed i]? = some b) ∧
      (∀ inp, ∃ s', reactiveLedLoop inp s = some s') := by
  obtain ⟨s, hs, hl⟩ := run_lockstep ticks (reactiveLedSetup s0) (lockstep_setup s0)
  have hv := lockstep_valid s hl
  refine ⟨s, hs, fun i => ?_, fun i => ⟨_, candleVals_lookup _ (hv i)⟩, fun inp => ?_⟩
  · rw [candleVals_length]
    exact hv i
  · obtain ⟨s', hs', _⟩ := loop_lockstep inp s hl
    exact ⟨s', hs'⟩

/-- C13: from OFF with a light reading at or above 200, when both sensors read 1 in the
same call, `reactiveLedLoop` returns with `led_state = 1`, not 2. -/
theorem C13_left_precedence (inp : Inputs) (s : State) (hoff : s.led_state = 0)
    (hlight : inp.light ≥ 200) (hl : inp.sensorLeft = 1) (_hr : inp.sensorRight = 1) :
    ∃ s', reactiveLedLoop inp s = some s' ∧ s'.led_state = 1 ∧ s'.led_state ≠ 2 := by
  exact ⟨_, loop_off_left inp s hoff hl hlight, rfl, show (1 : Int) ≠ 2 by decide⟩

/-- C13 at the threshold 200 with both sensors triggered. -/
theorem C13_left_precedence_witness :
    ∃ s', reactiveLedLoop ⟨200, 1, 1⟩ initState = some s' ∧ s'.led_state = 1 ∧
      s'.led_state ≠ 2 :=
  C13_left_precedence ⟨200, 1, 1⟩ initState rfl (by decide) rfl rfl

theorem transition_defined (a b : Int) (h : Transition a b) : Defined b := by
  unfold Transition at h
  unfold Defined
  omega

theorem holdTimer_led (inp : Inputs) (s : State) :
    (holdTimer inp s).led_state = s.led_state ∨ (holdTimer inp s).led_state = 4 := by
  unfold holdTimer
  split
  · exact Or.inl rfl
  · split
    · exact Or.inr rfl
    · exact Or.inl rfl

theorem transition_hold (inp : Inputs) (a : Int) (s : State) (ha : a = 3)
    (h : s.led_state = 3) : Transition a (holdTimer inp s).led_state := by
  rcases holdTimer_led inp s with e | e
  · rw [e, h, ha]; unfold Transition; omega
  · rw [e, ha]; unfold Transition; omega

theorem loop_transition (inp : Inputs) (s : State) (hv : ∀ i, s.flickerIndexPerLed i < 64)
    (hd : Defined s.led_state) :
    ∃ s', reactiveLedLoop inp s = some s' ∧ (∀ i, s'.flickerIndexPerLed i < 64) ∧
      Transition s.led_state s'.led_state := by
  by_cases h0 : s.led_state = 0
  · rw [h0]
    by_cases hl : inp.light ≥ lumidity
    · by_cases hle : inp.sensorLeft = 1
      · exact ⟨_, loop_off_left inp s h0 hle hl, hv, Or.inr (Or.inl ⟨rfl, rfl⟩)⟩
      · by_cases hri : inp.sensorRight = 1
        · exact ⟨_, loop_off_right inp s h0 hle hri hl, hv, Or.inr (Or.inr (Or.inl ⟨rfl, rfl⟩))⟩
        · exact ⟨_, loop_off_stay inp s h0 (Or.inr ⟨hle, hri⟩), hv, Or.inl ⟨rfl, rfl⟩⟩
    · exact ⟨_, loop_off_stay inp s h0 (Or.inl (not_le.mp hl)), hv, Or.inl ⟨rfl, rfl⟩⟩
  by_cases h1 : s.led_state = 1
  · refine ⟨_, loop_ramp_left inp s h1, ?_, ?_⟩
    · rw [turnonleft_eq]; exact hv
    · rw [turnonleft_eq, h1]; unfold Transition; simp
  by_cases h2 : s.led_state = 2
  · refine ⟨_, loop_ramp_right inp s h2, ?_, ?_⟩
    · rw [turnonright_eq]; exact hv
    · rw [turnonright_eq, h2]; unfold Transition; simp
  by_cases h3 : s.led_state = 3
  · by_cases hg : subU32 s.clock s.lastFlicker ≥ FLICKER_DELAY_MS
    · refine ⟨_, loop_hold_gate inp s h3 hg hv, fun i => ?_, ?_⟩
      · rw [holdTimer_cursor]
        exact Nat.mod_lt _ (by decide)
      · exact transition_hold inp _ _ h3 h3
    · refine ⟨_, loop_hold_idle inp s h3 hg, fun i => ?_, ?_⟩
      · rw [holdTimer_cursor]
        exact hv i
      · exact transition_hold inp _ _ h3 h3
  by_cases h4 : s.led_state = 4
  · refine ⟨_, loop_ramp_down inp s h4, ?_, ?_⟩
    · rw [turnoff_eq]; exact hv
    · rw [turnoff_eq, h4]; unfold Transition; simp
  · unfold Defined at hd
    omega

theorem run_defined (ticks : List Tick) (s : State) (hv : ∀ i, s.flickerIndexPerLed i < 64)
    (hd : Defined s.led_state) :
    ∃ s', run ticks s = some s' ∧ (∀ i, s'.flickerIndexPerLed i < 64) ∧ Defined s'.led_state := by
  induction ticks generalizing s with
  | nil => exact ⟨s, rfl, hv, hd⟩
  | cons tk tks ih =>
    obtain ⟨s1, hs1, hv1, ht1⟩ := loop_transition tk.inp { s with clock := tk.now % U32 } hv hd
    obtain ⟨s2, hs2, hv2, hd2⟩ := ih s1 hv1 (transition_defined _ _ ht1)
    refine ⟨s2, ?_, hv2, hd2⟩
    simp only [run, tick, hs1, Option.some_bind, hs2]

/-- C12: starting from a state with `led_state = 0` (and cursors that are table indices, as
at power-on and after `reactiveLedSetup`), after any sequence of calls of
`reactiveLedLoop` with any clock values and samples, every call returns and `led_state` is
one of 0, 1, 2, 3, 4; and the next call from the state reached, made at any clock value
`tk.now` and with any samples `tk.inp` (and likewise a call at the clock value the previous
call left), returns and changes `led_state` by one of 0->0, 0->1, 0->2, 1->3, 2->3, 3->3,
3->4, 4->0 only. -/
theorem C12_state_set (s0 : State) (h0 : s0.led_state = 0)
    (hv : ∀ i, s0.flickerIndexPerLed i < 64) (ticks : List Tick) :
    ∃ s, run ticks s0 = some s ∧
      (s.led_state = 0 ∨ s.led_state = 1 ∨ s.led_state = 2 ∨ s.led_state = 3 ∨
        s.led_state = 4) ∧
      (∀ tk : Tick, ∃ s', tick tk s = some s' ∧
        ((s.led_state = 0 ∧ s'.led_state = 0) ∨ (s.led_state = 0 ∧ s'.led_state = 1) ∨
         (s.led_state = 0 ∧ s'.led_state = 2) ∨ (s.led_state = 1 ∧ s'.led_state = 3) ∨
         (s.led_state = 2 ∧ s'.led_state = 3) ∨ (s.led_state = 3 ∧ s'.led_state = 3) ∨
         (s.led_state = 3 ∧ s'.led_state = 4) ∨ (s.led_state = 4 ∧ s'.led_state = 0))) ∧
      (∀ inp : Inputs, ∃ s', reactiveLedLoop inp s = some s' ∧
        ((s.led_state = 0 ∧ s'.led_state = 0) ∨ (s.led_state = 0 ∧ s'.led_state = 1) ∨
         (s.led_state = 0 ∧ s'.led_state = 2) ∨ (s.led_state = 1 ∧ s'.led_state = 3) ∨
         (s.led_state = 2 ∧ s'.led_state = 3) ∨ (s.led_state = 3 ∧ s'.led_state = 3) ∨
         (s.led_state = 3 ∧ s'.led_state = 4) ∨ (s.led_state = 4 ∧ s'.led_state = 0))) := by
  obtain ⟨s, hs, hvs, hds⟩ := run_defined ticks s0 hv (Or.inl h0)
  refine ⟨s, hs, hds, fun tk => ?_, fun inp => ?_⟩
  · obtain ⟨s', hs', _, ht⟩ :=
      loop_transition tk.inp { s with clock := tk.now % U32 } hvs hds
    exact ⟨s', hs', ht⟩
  · obtain ⟨s', hs', _, ht⟩ := loop_transition inp s hvs hds
    exact ⟨s', hs', ht⟩

/-- C12 from power-on through an OFF call, a trigger and the ramp-in, which ends in HOLD:
the next call, at any clock value, makes one of the listed transitions. -/
theorem C12_state_set_witness :
    ∃ s, run [⟨0, ⟨0, 0, 0⟩⟩, ⟨5, ⟨300, 0, 1⟩⟩, ⟨10, ⟨0, 0, 0⟩⟩] initState = some s ∧
      (s.led_state = 0 ∨ s.led_state = 1 ∨ s.led_state = 2 ∨ s.led_state = 3 ∨
        s.led_state = 4) ∧
      (∀ tk : Tick, ∃ s', tick tk s = some s' ∧
        ((s.led_state = 0 ∧ s'.led_state = 0) ∨ (s.led_state = 0 ∧ s'.led_state = 1) ∨
         (s.led_state = 0 ∧ s'.led_state = 2) ∨ (s.led_state = 1 ∧ s'.led_state = 3) ∨
         (s.led_state = 2 ∧ s'.led_state = 3) ∨ (s.led_state = 3 ∧ s'.led_state = 3) ∨
         (s.led_state = 3 ∧ s'.led_state = 4) ∨ (s.led_state = 4 ∧ s'.led_state = 0))) ∧
      (∀ inp : Inputs, ∃ s', reactiveLedLoop inp s = some s' ∧
        ((s.led_state = 0 ∧ s'.led_state = 0) ∨ (s.led_state = 0 ∧ s'.led_state = 1) ∨
         (s.led_state = 0 ∧ s'.led_state = 2) ∨ (s.led_state = 1 ∧ s'.led_state = 3) ∨
         (s.led_state = 2 ∧ s'.led_state = 3) ∨ (s.led_state = 3 ∧ s'.led_state = 3) ∨
         (s.led_state = 3 ∧ s'.led_state = 4) ∨ (s.led_state = 4 ∧ s'.led_state = 0))) :=
  C12_state_set initState rfl (fun _ => show (0 : Nat) < 64 by decide)
    [⟨0, ⟨0, 0, 0⟩⟩, ⟨5, ⟨300, 0, 1⟩⟩, ⟨10, ⟨0, 0, 0⟩⟩]

theorem flickerChannel_light (v : Int) (s : State) (i : Fin ledPinLength) :
    flickerChannel (setLight v s) i = (flickerChannel s i).map (setLight v) := by
  unfold flickerChannel
  simp only [setLight]
  cases candleVals[s.flickerIndexPerLed i]? with
  | none => rfl
  | some b =>
    simp only [analogWrite]
    split <;> rfl

theorem foldlM_light (v : Int) (l : List (Fin ledPinLength)) (s : State) :
    l.foldlM flickerChannel (setLight v s) = (l.foldlM flickerChannel s).map (setLight v) := by
  induction l generalizing s with
  | nil => rfl
  | cons i l ih =>
    rw [List.foldlM_cons, List.foldlM_cons, flickerChannel_light]
    cases flickerChannel s i with
    | none => rfl
    | some a => exact ih a

theorem holdTimer_light (v : Int) (inp : Inputs) (s : State) :
    holdTimer inp (setLight v s) = setLight v (holdTimer inp s) := by
  unfold holdTimer
  simp only [setLight]
  split <;> [rfl; (split <;> rfl)]

theorem holdTimer_inputs (L1 L2 l r : Int) (s : State) :
    holdTimer ⟨L2, l, r⟩ s = holdTimer ⟨L1, l, r⟩ s := rfl

theorem loop_light (L1 L2 l r : Int) (s : State) (h0 : s.led_state ≠ 0) :
    reactiveLedLoop ⟨L2, l, r⟩ s = (reactiveLedLoop ⟨L1, l, r⟩ s).map (setLight L2) := by
  by_cases h1 : s.led_state = 1
  · rw [loop_ramp_left _ s h1, loop_ramp_left _ s h1, turnonleft_eq, turnonleft_eq]
    rfl
  by_cases h2 : s.led_state = 2
  · rw [loop_ramp_right _ s h2, loop_ramp_right _ s h2, turnonright_eq, turnonright_eq]
    rfl
  by_cases h3 : s.led_state = 3
  · rw [loop_hold_bind _ s h3, loop_hold_bind _ s h3]
    by_cases hg : subU32 s.clock s.lastFlicker ≥ FLICKER_DELAY_MS
    · simp only [if_pos hg]
      have e : ({ s with lightValue := L2, lastFlicker := s.clock } : State)
          = setLight L2 { s with lightValue := L1, lastFlicker := s.clock } := rfl
      rw [e, foldlM_light]
      cases (List.finRange ledPinLength).foldlM flickerChannel
          { s with lightValue := L1, lastFlicker := s.clock } with
      | none => rfl
      | some a =>
        simp only [Option.map_some', Option.some_bind]
        rw [holdTimer_light, holdTimer_inputs L1 L2]
    · simp only [if_neg hg, Option.some_bind, Option.map_some']
      have e : ({ s with lightValue := L2 } : State)
          = setLight L2 { s with lightValue := L1 } := rfl
      rw [e, holdTimer_light, holdTimer_inputs L1 L2]
  by_cases h4 : s.led_state = 4
  · rw [loop_ramp_down _ s h4, loop_ramp_down _ s h4, turnoff_eq, turnoff_eq]
    rfl
  · rw [loop_other _ s h0 h1 h2 h3 h4, loop_other _ s h0 h1 h2 h3 h4]
    rfl

theorem loop_stores_light (inp : Inputs) (s s' : State) (h0 : s.led_state ≠ 0)
    (h : reactiveLedLoop inp s = some s') : s'.lightValue = inp.light := by
  have e := loop_light inp.light inp.light inp.sensorLeft inp.sensorRight s h0
  have hinp : (⟨inp.light, inp.sensorLeft, inp.sensorRight⟩ : Inputs) = inp := rfl
  rw [hinp, h] at e
  have e' := Option.some.inj e
  rw [e']
  rfl

/-- C14: from a state with `led_state` 1, 2, 3 or 4, two calls of `reactiveLedLoop` that
differ only in the light reading (`L1` or `L2`, same sensor samples, same state and clock)
give the same result up to the stored `lightValue`: the call with `L2` returns exactly the
state the call with `L1` returns with `lightValue` replaced by `L2` (so `led_state`, hold
timer, flicker timer, cursors, outputs, clock and write history agree), and it returns
whenever the other does; each run stores its own reading. -/
theorem C14_light_only_in_off (s : State)
    (h : s.led_state = 1 ∨ s.led_state = 2 ∨ s.led_state = 3 ∨ s.led_state = 4)
    (L1 L2 l r : Int) :
    reactiveLedLoop ⟨L2, l, r⟩ s
      = (reactiveLedLoop ⟨L1, l, r⟩ s).map (fun s1 => { s1 with lightValue := L2 }) ∧
    (∀ s1, reactiveLedLoop ⟨L1, l, r⟩ s = some s1 → s1.lightValue = L1) ∧
    (∀ s2, reactiveLedLoop ⟨L2, l, r⟩ s = some s2 → s2.lightValue = L2) := by
  have h0 : s.led_state ≠ 0 := by omega
  exact ⟨loop_light L1 L2 l r s h0, fun s1 h1 => loop_stores_light _ s s1 h0 h1,
    fun s2 h2 => loop_stores_light _ s s2 h0 h2⟩

/-- C14 in HOLD with the light readings 0 and 1023. -/
theorem C14_light_only_in_off_witness :
    reactiveLedLoop ⟨1023, 0, 0⟩ holdExample
      = (reactiveLedLoop ⟨0, 0, 0⟩ holdExample).map (fun s1 => { s1 with lightValue := 1023 }) ∧
    (∀ s1, reactiveLedLoop ⟨0, 0, 0⟩ holdExample = some s1 → s1.lightValue = 0) ∧
    (∀ s2, reactiveLedLoop ⟨1023, 0, 0⟩ holdExample = some s2 → s2.lightValue = 1023) :=
  C14_light_only_in_off holdExample (Or.inr (Or.inr (Or.inl rfl))) 0 1023 0 0

theorem writeCount_append (a b : List Event) :
    writeCount (a ++ b) = writeCount a + writeCount b := by
  unfold writeCount
  rw [List.countP_append]

theorem delayTotal_append (a b : List Event) :
    delayTotal (a ++ b) = delayTotal a + delayTotal b := by
  unfold delayTotal
  rw [List.map_append, List.sum_append]

theorem writeCount_rampUp (pin n : Nat) : writeCount (rampUpTrace pin n) = n := by
  induction n with
  | zero => rfl
  | succ n ih =>
    have e : rampUpTrace pin (n + 1)
        = rampUpTrace pin n ++ [Event.write pin (n : Int), Event.delay dimSpeedHi] := by
      simp only [rampUpTrace, List.range_succ, List.flatMap_append, List.flatMap_cons,
        List.flatMap_nil, List.append_nil]
    rw [e, writeCount_append, ih]
    rfl

theorem delayTotal_rampUp (pin n : Nat) : delayTotal (rampUpTrace pin n) = dimSpeedHi * n := by
  induction n with
  | zero => rfl
  | succ n ih =>
    have e : rampUpTrace pin (n + 1)
        = rampUpTrace pin n ++ [Event.write pin (n : Int), Event.delay dimSpeedHi] := by
      simp only [rampUpTrace, List.range_succ, List.flatMap_append, List.flatMap_cons,
        List.flatMap_nil, List.append_nil]
    rw [e, delayTotal_append, ih]
    simp only [delayTotal, List.map_cons, List.map_nil, List.sum_cons, List.sum_nil, dimSpeedHi]
    omega

theorem rampIn_counts (f : Fin ledPinLength → Nat) :
    writeCount ((List.finRange ledPinLength).flatMap (fun i => rampUpTrace (f i) 256)) = 1536 ∧
    delayTotal ((List.finRange ledPinLength).flatMap (fun i => rampUpTrace (f i) 256)) = 4608 := by
  rw [finRange_six]
  simp only [List.flatMap_cons, List.flatMap_nil, List.append_nil, writeCount_append,
    delayTotal_append, writeCount_rampUp, delayTotal_rampUp, dimSpeedHi]
  exact ⟨trivial, trivial⟩

theorem rev_eq_mirror : ∀ i : Fin ledPinLength, Fin.rev i = mirror i := by decide

/-- C15: `turnonleft` appends to the history exactly the trace "channel 0 at levels
0, 1, ..., 255, then channel 1, ..., then channel 5", each write followed by one delay of
`dimSpeedHi` = 3 ms: 6 * 256 = 1536 writes, delays adding up to 4608 ms, and the clock ends
4608 ms later (modulo 2^32).  `turnonright` appends the same trace with channel `i`
replaced by channel `5 - i`. -/
theorem C15_ramp_in_trace (s : State) :
    (∃ tr, (turnonleft s).log = s.log ++ tr ∧
      tr = (List.finRange ledPinLength).flatMap (fun i =>
        (List.range 256).flatMap (fun j =>
          [Event.write (LedPins i) (j : Int), Event.delay dimSpeedHi])) ∧
      writeCount tr = 6 * 256 ∧ delayTotal tr = 6 * 256 * 3) ∧
    (turnonleft s).clock = (s.clock + 4608) % U32 ∧
    (∃ tr, (turnonright s).log = s.log ++ tr ∧
      tr = (List.finRange ledPinLength).flatMap (fun i =>
        (List.range 256).flatMap (fun j =>
          [Event.write (LedPins (mirror i)) (j : Int), Event.delay dimSpeedHi])) ∧
      writeCount tr = 6 * 256 ∧ delayTotal tr = 6 * 256 * 3) ∧
    (turnonright s).clock = (s.clock + 4608) % U32 := by
  have hl := rampIn_counts (fun i => LedPins i)
  have hr := rampIn_counts (fun i => LedPins (mirror i))
  refine ⟨⟨_, ?_, ?_, hl.1, hl.2⟩, ?_, ⟨_, ?_, ?_, hr.1, hr.2⟩, ?_⟩
  · rw [turnonleft_eq]
  · simp only [rampUpTrace]
  · rw [turnonleft_eq]
  · rw [turnonright_eq]
    simp only [rev_eq_mirror]
  · simp only [rampUpTrace]
  · rw [turnonright_eq]

theorem turnoff_steps (s : State) :
    turnoff s = { (List.range 256).reverse.foldl turnoffStep s with led_state := 0 } := rfl

theorem turnoffStep_upto (l : List Nat) (x : Nat) (s : State) :
    (l ++ [x]).foldl turnoffStep s
      = { s with pwm := allPins (x : Int) s.pwm,
                 clock := (s.clock + dimSpeedLo * (l.length + 1)) % U32,
                 log := s.log ++ (l ++ [x]).flatMap levelTrace } :=
  rampDown_foldl l x s

theorem writeCount_level (j : Nat) : writeCount (levelTrace j) = 6 := by
  rw [levelTrace, finRange_six]
  rfl

theorem delayTotal_level (j : Nat) : delayTotal (levelTrace j) = dimSpeedLo := by
  rw [levelTrace, finRange_six]
  rfl

theorem rampOut_counts (l : List Nat) :
    writeCount (l.flatMap levelTrace) = 6 * l.length ∧
    delayTotal (l.flatMap levelTrace) = dimSpeedLo * l.length := by
  induction l with
  | nil => exact ⟨rfl, rfl⟩
  | cons j l ih =>
    rw [List.flatMap_cons, writeCount_append, delayTotal_append, writeCount_level,
      delayTotal_level, ih.1, ih.2, List.length_cons]
    constructor <;> ring

theorem levels_descend (n k : Nat) (h : k < n) :
    (List.range n).reverse[k]? = some (n - 1 - k) := by
  rw [List.getElem?_reverse (by rw [List.length_range]; exact h), List.length_range]
  exact List.getElem?_range (by omega)

/-- C16: `turnoff` steps a shared level through 255, 254, ..., 0 (256 levels: the level at
position `k` is `255 - k`); at each level it writes that level to channels 0..5 and then
waits once `dimSpeedLo` = 5 ms, so the appended trace has 6 * 256 writes and delays adding
up to 1280 ms, after every step all six channels show the level of that step, and the clock
ends 1280 ms later (modulo 2^32). -/
theorem C16_ramp_out_trace (s : State) :
    (∃ tr, (turnoff s).log = s.log ++ tr ∧
      tr = (List.range 256).reverse.flatMap (fun j =>
        (List.finRange ledPinLength).map (fun i => Event.write (LedPins i) (j : Int))
          ++ [Event.delay dimSpeedLo]) ∧
      writeCount tr = 6 * 256 ∧ delayTotal tr = 256 * 5) ∧
    (List.range 256).reverse.length = 256 ∧
    (∀ k, k < 256 → (List.range 256).reverse[k]? = some (255 - k)) ∧
    (∀ (l : List Nat) (x : Nat) (rest : List Nat), (List.range 256).reverse = l ++ x :: rest →
      (∀ i, ((l ++ [x]).foldl turnoffStep s).brightness i = x) ∧
      turnoff s = { rest.foldl turnoffStep ((l ++ [x]).foldl turnoffStep s)
                    with led_state := 0 }) ∧
    (turnoff s).clock = (s.clock + 1280) % U32 := by
  have hc := rampOut_counts (List.range 256).reverse
  rw [List.length_reverse, List.length_range] at hc
  refine ⟨⟨_, ?_, ?_, hc.1, hc.2⟩, ?_, fun k hk => levels_descend 256 k hk, ?_, ?_⟩
  · rw [turnoff_eq]
  · rfl
  · rw [List.length_reverse, List.length_range]
  · intro l x rest hsplit
    constructor
    · intro i
      rw [turnoffStep_upto]
      exact allPins_LedPins _ _ i
    · rw [turnoff_steps, hsplit, ← List.foldl_append]
      simp only [List.append_assoc, List.singleton_append]
  · rw [turnoff_eq]

/-- C16 at power-on: the first level written is 255 and the last is 0. -/
theorem C16_ramp_out_trace_witness :
    (List.range 256).reverse[0]? = some (255 - 0) ∧
    (List.range 256).reverse[255]? = some (255 - 255) :=
  ⟨(C16_ramp_out_trace initState).2.2.1 0 (by decide),
   (C16_ramp_out_trace initState).2.2.1 255 (by decide)⟩

theorem holdTimer_lastFlicker (inp : Inputs) (s : State) :
    (holdTimer inp s).lastFlicker = s.lastFlicker := by
  unfold holdTimer
  split <;> [rfl; (split <;> rfl)]

theorem holdTimer_timer (inp : Inputs) (s : State) :
    (holdTimer inp s).timer
      = if inp.sensorLeft = 1 ∨ inp.sensorRight = 1 then s.clock else s.timer := by
  unfold holdTimer
  split
  · rfl
  · split <;> rfl

theorem holdTimer_led_state (inp : Inputs) (s : State) :
    (holdTimer inp s).led_state
      = if inp.sensorLeft = 1 ∨ inp.sensorRight = 1 then s.led_state
        else if subU32 s.clock s.timer ≥ onTimeLight then 4 else s.led_state := by
  unfold holdTimer
  split
  · rfl
  · split <;> rfl

/-- C17: in HOLD at current time `t = s.clock`, with the elapsed time since `lastFlicker`
taken as the code takes it (32-bit difference): if it is below 35, one call of
`reactiveLedLoop` leaves every output, every cursor, `lastFlicker` and the write history
unchanged; if it is 35 or more (and the cursors are table indices), `lastFlicker` becomes
`t` and the history grows by exactly one write per channel, in channel order.  In both
cases the same call evaluates the hold-timer checks: a triggered sensor sets the timer to
`t`, otherwise `led_state` becomes 4 if and only if the hold time has elapsed. -/
theorem C17_cadence_gate (inp : Inputs) (s : State) (h3 : s.led_state = 3)
    (hdef : subU32 s.clock s.lastFlicker ≥ FLICKER_DELAY_MS → ∀ i, s.flickerIndexPerLed i < 64) :
    ∃ s', reactiveLedLoop inp s = some s' ∧
      (subU32 s.clock s.lastFlicker < 35 →
        s'.pwm = s.pwm ∧ s'.flickerIndexPerLed = s.flickerIndexPerLed ∧
        s'.lastFlicker = s.lastFlicker ∧ s'.log = s.log) ∧
      (subU32 s.clock s.lastFlicker ≥ 35 →
        s'.lastFlicker = s.clock ∧
        s'.log = s.log ++ (List.finRange ledPinLength).map
          (fun i => Event.write (LedPins i) (sample (s.flickerIndexPerLed i)))) ∧
      s'.timer = (if inp.sensorLeft = 1 ∨ inp.sensorRight = 1 then s.clock else s.timer) ∧
      s'.led_state = (if inp.sensorLeft = 1 ∨ inp.sensorRight = 1 then 3
        else if subU32 s.clock s.timer ≥ 10000 then 4 else 3) := by
  by_cases hg : subU32 s.clock s.lastFlicker ≥ FLICKER_DELAY_MS
  · have hg' : ¬ subU32 s.clock s.lastFlicker < 35 := not_lt.mpr hg
    refine ⟨_, loop_hold_gate inp s h3 hg (hdef hg), fun h => absurd h hg', fun _ => ?_, ?_, ?_⟩
    · rw [holdTimer_lastFlicker, holdTimer_log]
      exact ⟨rfl, rfl⟩
    · rw [holdTimer_timer]
      rfl
    · rw [holdTimer_led_state]
      simp only [flickered, h3]
      rfl
  · have hg' : ¬ subU32 s.clock s.lastFlicker ≥ 35 := hg
    refine ⟨_, loop_hold_idle inp s h3 hg, fun _ => ?_, fun h => absurd h hg', ?_, ?_⟩
    · rw [holdTimer_pwm, holdTimer_cursor, holdTimer_lastFlicker, holdTimer_log]
      exact ⟨rfl, rfl, rfl, rfl⟩
    · rw [holdTimer_timer]
    · rw [holdTimer_led_state]
      simp only [h3]
      rfl

/-- C17 on the example HOLD state: 34 ms after the last update nothing is written, 35 ms
after it the six channels are written once each. -/
theorem C17_cadence_gate_witness :
    (∃ s', reactiveLedLoop ⟨0, 0, 0⟩ { holdExample with lastFlicker := 100, clock := 134 }
        = some s' ∧ s'.lastFlicker = 100 ∧ s'.log = []) ∧
    (∃ s', reactiveLedLoop ⟨0, 0, 0⟩ { holdExample with lastFlicker := 100, clock := 135 }
        = some s' ∧ s'.lastFlicker = 135 ∧ s'.log.length = 6) := by
  obtain ⟨a, ha, ha1, _⟩ := C17_cadence_gate ⟨0, 0, 0⟩
    { holdExample with lastFlicker := 100, clock := 134 } rfl (fun _ => by decide)
  obtain ⟨b, hb, _, hb2, _⟩ := C17_cadence_gate ⟨0, 0, 0⟩
    { holdExample with lastFlicker := 100, clock := 135 } rfl (fun _ => by decide)
  have h1 := ha1 (by decide)
  have h2 := hb2 (by decide)
  refine ⟨⟨a, ha, h1.2.2.1, h1.2.2.2⟩, ⟨b, hb, h2.1, ?_⟩⟩
  rw [h2.2]
  rfl

theorem tick_cursor (tk : Tick) (s : State) (hv : ∀ i, s.flickerIndexPerLed i < 64) :
    ∃ s', tick tk s = some s' ∧
      s'.flickerIndexPerLed = (if gateFires tk s then
        (fun i => (s.flickerIndexPerLed i + 1) % 64) else s.flickerIndexPerLed) := by
  unfold tick
  by_cases h0 : s.led_state = 0
  · have hf : gateFires tk s = false := by simp [gateFires, h0]
    rw [hf]
    by_cases hl : tk.inp.light ≥ lumidity
    · by_cases hle : tk.inp.sensorLeft = 1
      · exact ⟨_, loop_off_left tk.inp _ h0 hle hl, rfl⟩
      · by_cases hri : tk.inp.sensorRight = 1
        · exact ⟨_, loop_off_right tk.inp _ h0 hle hri hl, rfl⟩
        · exact ⟨_, loop_off_stay tk.inp _ h0 (Or.inr ⟨hle, hri⟩), rfl⟩
    · exact ⟨_, loop_off_stay tk.inp _ h0 (Or.inl (not_le.mp hl)), rfl⟩
  by_cases h1 : s.led_state = 1
  · have hf : gateFires tk s = false := by simp [gateFires, h1]
    rw [hf]
    refine ⟨_, loop_ramp_left tk.inp _ h1, ?_⟩
    rw [turnonleft_eq]
    rfl
  by_cases h2 : s.led_state = 2
  · have hf : gateFires tk s = false := by simp [gateFires, h2]
    rw [hf]
    refine ⟨_, loop_ramp_right tk.inp _ h2, ?_⟩
    rw [turnonright_eq]
    rfl
  by_cases h3 : s.led_state = 3
  · by_cases hg : subU32 (tk.now % U32) s.lastFlicker ≥ FLICKER_DELAY_MS
    · have hf : gateFires tk s = true := by simp [gateFires, h3, hg]
      rw [hf]
      refine ⟨_, loop_hold_gate tk.inp { s with clock := tk.now % U32 } h3 hg hv, ?_⟩
      rw [holdTimer_cursor]
      rfl
    · have hf : gateFires tk s = false := by simp [gateFires, h3, hg]
      rw [hf]
      refine ⟨_, loop_hold_idle tk.inp { s with clock := tk.now % U32 } h3 hg, ?_⟩
      rw [holdTimer_cursor]
      rfl
  by_cases h4 : s.led_state = 4
  · have hf : gateFires tk s = false := by simp [gateFires, h4]
    rw [hf]
    refine ⟨_, loop_ramp_down tk.inp _ h4, ?_⟩
    rw [turnoff_eq]
    rfl
  · have hf : gateFires tk s = false := by simp [gateFires, h3]
    rw [hf]
    exact ⟨_, loop_other tk.inp _ h0 h1 h2 h3 h4, rfl⟩

theorem run_fireCount (ticks : List Tick) (s : State) (k : Nat)
    (hk : ∀ i : Fin ledPinLength, s.flickerIndexPerLed i = (7 * i.val + k) % 64) :
    ∃ s', run ticks s = some s' ∧
      ∀ i : Fin ledPinLength,
        s'.flickerIndexPerLed i = (7 * i.val + (k + fireCount ticks s)) % 64 := by
  induction ticks generalizing s k with
  | nil => exact ⟨s, rfl, fun i => by rw [fireCount, Nat.add_zero]; exact hk i⟩
  | cons tk tks ih =>
    have hv : ∀ i, s.flickerIndexPerLed i < 64 := fun i => by
      rw [hk i]; exact Nat.mod_lt _ (by decide)
    obtain ⟨s1, hs1, hc1⟩ := tick_cursor tk s hv
    by_cases hf : gateFires tk s = true
    · rw [if_pos hf] at hc1
      have hk1 : ∀ i : Fin ledPinLength,
          s1.flickerIndexPerLed i = (7 * i.val + (k + 1)) % 64 := by
        intro i
        rw [hc1]
        simp only [hk i]
        omega
      obtain ⟨s2, hs2, hc2⟩ := ih s1 (k + 1) hk1
      refine ⟨s2, by simp only [run, hs1, Option.some_bind, hs2], fun i => ?_⟩
      rw [hc2 i]
      simp only [fireCount, hs1, if_pos hf]
      congr 2
      omega
    · rw [if_neg hf] at hc1
      have hk1 : ∀ i : Fin ledPinLength,
          s1.flickerIndexPerLed i = (7 * i.val + k) % 64 := by
        intro i
        rw [hc1]
        exact hk i
      obtain ⟨s2, hs2, hc2⟩ := ih s1 k hk1
      refine ⟨s2, by simp only [run, hs1, Option.some_bind, hs2], fun i => ?_⟩
      rw [hc2 i]
      simp only [fireCount, hs1, if_neg hf]
      congr 2
      omega

/-- C18: after `reactiveLedSetup` (from any prior state) and any sequence of calls of
`reactiveLedLoop`, every call returns and the cursor of channel `i` is `(7 * i + k) mod 64`
with `k` the number of calls of the sequence in which the flicker update ran (state HOLD
with the cadence gate open); and a further call advances every cursor by one (mod 64) if
the flicker update runs in it and leaves every cursor unchanged otherwise, whatever the
state (OFF, a ramp, HOLD entered again) and the samples. -/
theorem C18_lockstep_closed_form (s0 : State) (ticks : List Tick) :
    ∃ s, run ticks (reactiveLedSetup s0) = some s ∧
      (∀ i : Fin ledPinLength, s.flickerIndexPerLed i
        = (7 * i.val + fireCount ticks (reactiveLedSetup s0)) % 64) ∧
      (∀ tk, ∃ s', tick tk s = some s' ∧
        s'.flickerIndexPerLed = (if gateFires tk s then
          (fun i => (s.flickerIndexPerLed i + 1) % 64) else s.flickerIndexPerLed)) := by
  have h0 : ∀ i : Fin ledPinLength,
      (reactiveLedSetup s0).flickerIndexPerLed i = (7 * i.val + 0) % 64 := by
    intro i
    rw [reactiveLedSetup_eq, Nat.add_zero, Nat.mul_comm]
  obtain ⟨s, hs, hc⟩ := run_fireCount ticks (reactiveLedSetup s0) 0 h0
  refine ⟨s, hs, fun i => ?_, fun tk => ?_⟩
  · rw [hc i, Nat.zero_add]
  · exact tick_cursor tk s (fun i => by rw [hc i]; exact Nat.mod_lt _ (by decide))

theorem subU32_wrap (T e : Nat) (he : e < U32) :
    subU32 ((T + e) % U32) T = e := by
  simp only [subU32, U32] at *
  omega

theorem subU32_int (a b : Nat) :
    ((subU32 a b : Nat) : Int) = ((a : Int) - (b : Int)) % 4294967296 := by
  simp only [subU32, U32]
  omega

/-- C19: the hold timeout compares the 32-bit difference `(now - timer) mod 2^32` with
10000.  Hence in HOLD with no sensor triggered, if the clock now reads `(T + e) mod 2^32`
where `T` is the hold timer and `e < 2^32` the time truly elapsed since then (the clock may
have overflowed in between), one call of `reactiveLedLoop` returns with `led_state = 4` if
and only if `10000 ≤ e`, and with `led_state = 3` and the timer unchanged if `e < 10000`.
The call is taken where it is defined: if the cadence gate fires, the cursors are valid
table indices. -/
theorem C19_clock_wraparound (inp : Inputs) (s : State) (e : Nat) (h3 : s.led_state = 3)
    (hdef : subU32 s.clock s.lastFlicker ≥ FLICKER_DELAY_MS → ∀ i, s.flickerIndexPerLed i < 64)
    (hl : inp.sensorLeft ≠ 1) (hr : inp.sensorRight ≠ 1)
    (he : e < U32) (hnow : s.clock = (s.timer + e) % U32) :
    ((subU32 s.clock s.timer : Nat) : Int)
      = ((s.clock : Int) - (s.timer : Int)) % 4294967296 ∧
    ∃ s', reactiveLedLoop inp s = some s' ∧
      (s'.led_state = 4 ↔ subU32 s.clock s.timer ≥ 10000) ∧
      (s'.led_state = 4 ↔ 10000 ≤ e) ∧
      (e < 10000 → s'.led_state = 3 ∧ s'.timer = s.timer) := by
  refine ⟨subU32_int _ _, ?_⟩
  obtain ⟨s1, hs1, hled, htm, hck⟩ := loop_hold inp s h3 hdef
  have hsub : subU32 s.clock s.timer = e := by rw [hnow]; exact subU32_wrap _ _ he
  refine ⟨_, hs1, ?_⟩
  rw [holdTimer_quiet inp s1 hl hr, hck, htm, hsub]
  by_cases hge : e ≥ onTimeLight
  · have hge' : 10000 ≤ e := hge
    rw [if_pos hge]
    exact ⟨⟨fun _ => hge', fun _ => rfl⟩, ⟨fun _ => hge', fun _ => rfl⟩,
      fun hlt => absurd hge' (not_le.mpr hlt)⟩
  · have hge' : ¬ 10000 ≤ e := hge
    rw [if_neg hge]
    have hne : ¬ s1.led_state = 4 := by rw [hled]; decide
    exact ⟨⟨fun h4 => absurd h4 hne, fun h => absurd h hge'⟩,
      ⟨fun h4 => absurd h4 hne, fun h => absurd h hge'⟩, fun _ => ⟨hled, htm⟩⟩

/-- C19 with the hold timer at 2^32 - 500: no transition when the wrapped clock reads 9499
(9999 ms elapsed), the transition when it reads 9500 (10000 ms elapsed). -/
theorem C19_clock_wraparound_witness :
    (∃ s', reactiveLedLoop ⟨0, 0, 0⟩
        { holdExample with timer := 4294966796, lastFlicker := 4294966796, clock := 9499 }
        = some s' ∧ s'.led_state = 3 ∧ s'.timer = 4294966796) ∧
    (∃ s', reactiveLedLoop ⟨0, 0, 0⟩
        { holdExample with timer := 4294966796, lastFlicker := 4294966796, clock := 9500 }
        = some s' ∧ s'.led_state = 4) := by
  obtain ⟨_, a, ha, _, _, ha3⟩ := C19_clock_wraparound ⟨0, 0, 0⟩
    { holdExample with timer := 4294966796, lastFlicker := 4294966796, clock := 9499 } 9999
    rfl (fun _ => by decide) (by decide) (by decide) (by decide) (by decide)
  obtain ⟨_, b, hb, _, hb2, _⟩ := C19_clock_wraparound ⟨0, 0, 0⟩
    { holdExample with timer := 4294966796, lastFlicker := 4294966796, clock := 9500 } 10000
    rfl (fun _ => by decide) (by decide) (by decide) (by decide) (by decide)
  exact ⟨⟨a, ha, ha3 (by decide)⟩, ⟨b, hb, hb2.mpr (by decide)⟩⟩

theorem loop_ramp_in (inp : Inputs) (s : State) (h : s.led_state = 1 ∨ s.led_state = 2) :
    ∃ s1, reactiveLedLoop inp s = some s1 ∧ s1.led_state = 3 ∧
      s1.lastFlicker = s.lastFlicker ∧ s1.flickerIndexPerLed = s.flickerIndexPerLed ∧
      s1.pwm = allPins 255 s.pwm ∧ s1.clock = (s.clock + 4608) % U32 := by
  rcases h with h | h
  · refine ⟨_, loop_ramp_left inp s h, ?_⟩
    rw [turnonleft_eq]
    exact ⟨rfl, rfl, rfl, rfl, rfl⟩
  · refine ⟨_, loop_ramp_right inp s h, ?_⟩
    rw [turnonright_eq]
    exact ⟨rfl, rfl, rfl, rfl, rfl⟩

theorem sample_eq_255 (k : Nat) (h : k < 64) :
    sample k = 255 ↔ candleVals[k]? = some 255 := by
  rw [candleVals_lookup k h]
  unfold sample
  constructor
  · intro e
    have : candleVals.getD k 0 = 255 := by omega
    rw [this]
  · intro e
    have := Option.some.inj e
    rw [this]
    rfl

/-- C20: let a ramp-in start (state 1 or 2) at clock `t = s.clock` with `lastFlicker ≤ t`
and cursors that are table indices.  The ramp call returns with every channel at 255.  In
the next call of `reactiveLedLoop`, made at any time `now` with `t + 4608 ≤ now < 2^32` and
with any samples, the cadence gate is open (the elapsed time is at least 4608 ≥ 35), so
`lastFlicker` becomes `now`, every channel `i` is rewritten to `candleVals[c i]` and its
cursor advances; the brightness 255 left by the ramp survives on a channel exactly when
its sample is 255. -/
theorem C20_first_hold_tick_flickers (inp inp' : Inputs) (s : State) (now : Nat)
    (hramp : s.led_state = 1 ∨ s.led_state = 2) (hlf : s.lastFlicker ≤ s.clock)
    (hv : ∀ i, s.flickerIndexPerLed i < 64)
    (hge : s.clock + 4608 ≤ now) (hlt : now < U32) :
    ∃ s1, reactiveLedLoop inp s = some s1 ∧ (∀ i, s1.brightness i = 255) ∧
      subU32 now s1.lastFlicker ≥ FLICKER_DELAY_MS ∧
      ∃ s2, reactiveLedLoop inp' { s1 with clock := now } = some s2 ∧
        s2.lastFlicker = now ∧
        ∀ i, (candleVals[s.flickerIndexPerLed i]?).map (fun b : Nat => (b : Int))
              = some (s2.brightness i) ∧
          (s2.brightness i = 255 ↔ candleVals[s.flickerIndexPerLed i]? = some 255) ∧
          s2.flickerIndexPerLed i = (s.flickerIndexPerLed i + 1) % 64 := by
  obtain ⟨s1, hs1, hled, hlast, hcur, hpwm, _⟩ := loop_ramp_in inp s hramp
  have hgate : subU32 now s1.lastFlicker ≥ FLICKER_DELAY_MS := by
    rw [hlast, subU32_of_le now s.lastFlicker (by omega) hlt]
    simp only [FLICKER_DELAY_MS]
    omega
  have hv1 : ∀ i, s1.flickerIndexPerLed i < 64 := by rw [hcur]; exact hv
  refine ⟨s1, hs1, fun i => ?_, hgate, _,
    loop_hold_gate inp' { s1 with clock := now } hled hgate hv1, ?_, fun i => ?_⟩
  · rw [State.brightness, hpwm]
    exact allPins_LedPins 255 s.pwm i
  · rw [holdTimer_lastFlicker]
    rfl
  · have hb : (holdTimer inp' (flickered { s1 with clock := now, lightValue := inp'.light })).brightness i
        = sample (s.flickerIndexPerLed i) := by
      rw [State.brightness, holdTimer_pwm]
      simp only [flickered, flickerPwm_LedPins, hcur]
    refine ⟨?_, ?_, ?_⟩
    · rw [sample_lookup _ (hv i)]
      exact congrArg some hb.symm
    · rw [← sample_eq_255 _ (hv i)]
      exact ⟨fun h => hb ▸ h, fun h => hb.symm ▸ h⟩
    · rw [holdTimer_cursor]
      simp only [flickered, hcur]

/-- C20 on a left-to-right ramp started at clock 50, with the next call at 4658. -/
theorem C20_first_hold_tick_flickers_witness :
    ∃ s1, reactiveLedLoop ⟨0, 0, 0⟩ rampExample = some s1 ∧ (∀ i, s1.brightness i = 255) ∧
      ∃ s2, reactiveLedLoop ⟨0, 0, 0⟩ { s1 with clock := 4658 } = some s2 ∧
        s2.lastFlicker = 4658 ∧ s2.brightness 0 ≠ 255 := by
  obtain ⟨s1, h1, hb1, _, s2, h2, hl2, hs2⟩ := C20_first_hold_tick_flickers ⟨0, 0, 0⟩ ⟨0, 0, 0⟩
    rampExample 4658 (Or.inl rfl) (by decide) (by decide) (by decide) (by decide)
  refine ⟨s1, h1, hb1, s2, h2, hl2, fun h255 => ?_⟩
  have h := ((hs2 0).2.1).mp h255
  exact absurd h (by decide)

end Ganglicht
